import Mathlib

/-
Verification of the libIGES Line entity (IGES type 110, `entity110.cpp`)
and of the external handle for the singular-subfigure-instance entity
(type 408, `dll_entity408.cpp`).

The C++ state is embedded shallowly: `double` coordinates become `ℚ`,
entity objects become records, fallible methods return `Option`.
Functions of the repository that live outside the two given translation
units (the lexical codec of `iges_io.cpp`, the base-class entity
protocol, the model factory) are modelled from the specification; each
such definition carries a doc comment saying so.
-/

set_option maxRecDepth 10000

namespace LibIGES

/-! ### Decimal digit strings

The IGES parameter-data codec writes reals as decimal character strings.
We first develop the digit-list machinery used by both the emitter and
the parser. -/

/-- The character for a single decimal digit value. -/
def digitChar (n : Nat) : Char := Char.ofNat (48 + n)

/-- The numeric value of a decimal digit character. -/
def digToNat (c : Char) : Nat := c.toNat - 48

/-- Fuel-driven digit extraction; the fuel only has to dominate `n`. -/
def natToDigsF : Nat → Nat → List Char
  | _, 0 => []
  | 0, _ + 1 => []
  | f + 1, n + 1 => natToDigsF f ((n + 1) / 10) ++ [digitChar ((n + 1) % 10)]

/-- Most-significant-first decimal digits of `n`; empty for `0`. -/
def natToDigsAux (n : Nat) : List Char := natToDigsF n n

/-- Most-significant-first decimal digits of `n`, with `0` printed as "0". -/
def natToDigs (n : Nat) : List Char := if n = 0 then ['0'] else natToDigsAux n

/-- Value of a most-significant-first digit string. -/
def digitsToNat : List Char → Nat
  | [] => 0
  | c :: r => digToNat c * 10 ^ r.length + digitsToNat r

/-- Drop trailing `'0'` characters (used when emitting fractional digits). -/
def trimR (l : List Char) : List Char := (l.reverse.dropWhile (· == '0')).reverse

/-! ### Prime-factor counting

A `double` is a dyadic rational, so every coordinate value has a
denominator of the form `2^a * 5^b` once it is written as `m / 10^k`.
`facCount p n` counts the factors `p` in `n`; it determines the decimal
scale the emitter uses. -/

/-- Fuel-driven factor counting; the fuel only has to dominate `n`. -/
def facCountF : Nat → Nat → Nat → Nat
  | 0, _, _ => 0
  | f + 1, p, n => if 2 ≤ p ∧ 0 < n ∧ n % p = 0 then facCountF f p (n / p) + 1 else 0

/-- Number of factors `p` in `n` (zero when `p < 2` or `n = 0`). -/
def facCount (p n : Nat) : Nat := facCountF n p n

/-! ### The real-number field codec

`FormatPDREAL` and `ParseReal` live in `iges_io.cpp`, which is not among
the given sources; both are modelled from the specification (§4.2). -/

/-- A rational with a finite decimal expansion.  Every IEEE `double` is
dyadic and hence satisfies this. -/
def IsDec (q : ℚ) : Prop := ∃ (m : Int) (k : Nat), q * 10 ^ k = m

/-- The decimal scale used by the emitter: the number of fractional
digits needed to clear the denominator. -/
def decScale (q : ℚ) : Nat := max (facCount 2 q.den) (facCount 5 q.den)

/-- The integer mantissa of `q` at scale `decScale q`. -/
def decMantissa (q : ℚ) : Int := q.num * ((10 : Int) ^ decScale q / (q.den : Int))

/-- Modelled from the spec: `FormatPDREAL` (`iges_io.cpp`, not among the
sources) writes a real as a signed decimal mantissa with the trailing
zeros of the fraction trimmed, followed by the `D` exponent marker used
for doubles.  A rational with no finite decimal expansion (impossible
for a `double`) is rejected. -/
def formatRealNum (q : ℚ) : Option (List Char) :=
  if 10 ^ decScale q % q.den = 0 then
    some ((if q < 0 then ['-'] else []) ++
      natToDigs ((decMantissa q).natAbs / 10 ^ decScale q) ++
      '.' :: trimR (List.replicate
          (decScale q - (natToDigsAux ((decMantissa q).natAbs % 10 ^ decScale q)).length) '0'
        ++ natToDigsAux ((decMantissa q).natAbs % 10 ^ decScale q)) ++ ['D', '0'])
  else none

/-- Modelled from the spec: values whose magnitude is below the global
`minResolution` may be rounded to zero on write. -/
def roundZ (q uir : ℚ) : ℚ := if |q| < uir then 0 else q

/-- Modelled from the spec: `FormatPDREAL` appends the delimiter passed
by the caller after the formatted value. -/
def FormatPDReal (q : ℚ) (delim : Char) (uir : ℚ) : Option (List Char) :=
  (formatRealNum (roundZ q uir)).map (· ++ [delim])

/-- Modelled from the spec: an optional leading sign of a C-style number. -/
def parseSign : List Char → Bool × List Char
  | '-' :: r => (true, r)
  | '+' :: r => (false, r)
  | s => (false, s)

/-- Modelled from the spec: the optional fractional part after the mantissa
digits. -/
def fracPart : List Char → List Char × List Char
  | '.' :: r => (r.takeWhile Char.isDigit, r.dropWhile Char.isDigit)
  | s => ([], s)

/-- Modelled from the spec: the optional exponent, introduced by either the
`E` or the `D` marker. -/
def parseExpPart : List Char → Option (Int × List Char)
  | [] => some (0, [])
  | c :: r =>
    if c = 'D' ∨ c = 'E' then
      match parseSign r with
      | (eneg, r1) =>
        if (r1.takeWhile Char.isDigit).isEmpty then none
        else some ((if eneg then -1 else 1) * (digitsToNat (r1.takeWhile Char.isDigit) : Int),
          r1.dropWhile Char.isDigit)
    else some (0, c :: r)

/-- The rational encoded by sign, integer digits and fraction digits. -/
def mantissaVal (neg : Bool) (ds fs : List Char) : ℚ :=
  (if neg then -1 else 1) * ((digitsToNat ds : ℚ) + (digitsToNat fs : ℚ) / 10 ^ fs.length)

/-- Parse after the sign has been consumed. -/
def parseAfterSign (neg : Bool) (s1 : List Char) : Option (ℚ × List Char) :=
  match fracPart (s1.dropWhile Char.isDigit) with
  | (fs, s3) =>
    if (s1.takeWhile Char.isDigit).isEmpty && fs.isEmpty then none
    else
      match parseExpPart s3 with
      | none => none
      | some (ex, s4) =>
          some (mantissaVal neg (s1.takeWhile Char.isDigit) fs * (10 : ℚ) ^ ex, s4)

/-- Modelled from the spec: a C-style real — leading blanks skipped,
optional sign, mantissa digits, optional fraction, optional `E`/`D`
exponent. -/
def parseRealNum (s : List Char) : Option (ℚ × List Char) :=
  match parseSign (s.dropWhile (· == ' ')) with
  | (neg, s1) => parseAfterSign neg s1

/-- Modelled from the spec: `ParseReal` of `iges_io.cpp` reads one real
field and then requires the parameter or the record delimiter, reporting
end-of-record when the record delimiter was found. -/
def ParseReal (s : List Char) (pd rd : Char) : Option (ℚ × List Char × Bool) :=
  match parseRealNum s with
  | none => none
  | some (v, r) =>
    match r with
    | [] => none
    | c :: r' =>
      if c = pd then some (v, r', false)
      else if c = rd then some (v, r', true)
      else none

/-! ### Global data and the entity state

The state of `IGES_ENTITY_110` (`entity110.h`/`entity110.cpp`) and the
parts of the parent `IGES` object's global section that the Line entity
reads. -/

/-- The IGES unit flags (global field 14) that the model recognises. -/
inductive IGES_UNIT where
  | UNIT_INCH
  | UNIT_MILLIMETER
  | UNIT_FOOT
  | UNIT_MILE
  | UNIT_METER
  | UNIT_KILOMETER
  | UNIT_MIL
  | UNIT_MICRON
  | UNIT_CENTIMETER
  | UNIT_MICROINCH
  deriving DecidableEq

/-- Modelled from the spec: the length of one unit in millimetres. -/
def unitToMM : IGES_UNIT → ℚ
  | .UNIT_INCH => 254 / 10
  | .UNIT_MILLIMETER => 1
  | .UNIT_FOOT => 3048 / 10
  | .UNIT_MILE => 1609344
  | .UNIT_METER => 1000
  | .UNIT_KILOMETER => 1000000
  | .UNIT_MIL => 254 / 10000
  | .UNIT_MICRON => 1 / 1000
  | .UNIT_CENTIMETER => 10
  | .UNIT_MICROINCH => 254 / 10000000

/-- Modelled from the spec: the unit-conversion factor `cf` is the unit
in millimetres when the unit flag names a non-millimetre unit and the
caller has enabled conversion, else `1.0`. -/
def deriveCF (u : IGES_UNIT) (convert : Bool) : ℚ :=
  if convert ∧ u ≠ IGES_UNIT.UNIT_MILLIMETER then unitToMM u else 1

/-- The fields of the parent `IGES` object's `globalData` that the Line
entity reads: the two delimiters, the resolution, the conversion switch
and the conversion factor. -/
structure GlobalData where
  pdelim : Char
  rdelim : Char
  minResolution : ℚ
  convert : Bool
  cf : ℚ
  unitsFlag : IGES_UNIT
  deriving DecidableEq

/-- Subordinate-entity switch of the DE status word (`iges_base.h`). -/
inductive IGES_STAT_DEP where
  | STAT_INDEPENDENT
  | STAT_DEP_PHY
  | STAT_DEP_LOG
  | STAT_DEP_PHYLOG
  deriving DecidableEq

/-- Hierarchy sub-field of the DE status word (`iges_base.h`). -/
inductive IGES_STAT_HIER where
  | STAT_HIER_ALL_SUB
  | STAT_HIER_NO_SUB
  | STAT_HIER_USE_PROP
  deriving DecidableEq

/-- The state of a Line entity (`IGES_ENTITY_110`): the DE fields the
claims touch, the six endpoint coordinates, the reference bookkeeping of
the base class, and the optional trailing parameters. -/
structure IGES_ENTITY_110 where
  form : Int
  X1 : ℚ
  Y1 : ℚ
  Z1 : ℚ
  X2 : ℚ
  Y2 : ℚ
  Z2 : ℚ
  refs : List Nat
  depends : IGES_STAT_DEP
  «structure» : Int
  hierarchy : IGES_STAT_HIER
  parameterData : Int
  paramLineCount : Int
  extras : List Int
  comments : List (List Char)
  pStructure : Option Nat
  deriving DecidableEq

namespace IGES_ENTITY_110

/-- `IGES_ENTITY_110::rescale` (entity110.cpp:144-154): multiply the six
coordinates by the scale factor and return `true`. -/
def rescale (e : IGES_ENTITY_110) (sf : ℚ) : Bool × IGES_ENTITY_110 :=
  (true, { e with
    X1 := e.X1 * sf, Y1 := e.Y1 * sf, Z1 := e.Z1 * sf,
    X2 := e.X2 * sf, Y2 := e.Y2 * sf, Z2 := e.Z2 * sf })

/-- `IGES_ENTITY_110::IsOrphaned` (entity110.cpp:163-169). -/
def IsOrphaned (e : IGES_ENTITY_110) : Bool :=
  if e.refs.isEmpty ∧ e.depends ≠ IGES_STAT_DEP.STAT_INDEPENDENT then true else false

/-- `IGES_ENTITY_110::SetEntityForm` (entity110.cpp:294-304). -/
def SetEntityForm (e : IGES_ENTITY_110) (aForm : Int) : Bool × IGES_ENTITY_110 :=
  if aForm ≠ 0 ∧ aForm ≠ 1 ∧ aForm ≠ 2 then (false, e)
  else (true, { e with form := aForm })

/-- The Directory-Entry fields of the raw file record that the Line's
`ReadDE` inspects or overrides. -/
structure DERecord where
  form : Int
  «structure» : Int
  hierarchy : IGES_STAT_HIER
  deriving DecidableEq

/-- Modelled from the spec: the base-class `IGES_ENTITY::ReadDE` copies
the Directory-Entry fields of the record into the entity; `ok` stands
for its success. -/
def baseReadDE (e : IGES_ENTITY_110) (r : DERecord) (ok : Bool) : Option IGES_ENTITY_110 :=
  if ok then
    some { e with form := r.form, «structure» := r.«structure», hierarchy := r.hierarchy }
  else none

/-- `IGES_ENTITY_110::ReadDE` (entity110.cpp:184-203): base read, then
`structure = 0` and `hierarchy = STAT_HIER_ALL_SUB` unconditionally,
then the `{0,1,2}` form check. -/
def ReadDE (e : IGES_ENTITY_110) (r : DERecord) (ok : Bool) : Option IGES_ENTITY_110 :=
  match baseReadDE e r ok with
  | none => none
  | some e1 =>
    let e2 := { e1 with «structure» := 0, hierarchy := IGES_STAT_HIER.STAT_HIER_ALL_SUB }
    if e2.form ≠ 0 ∧ e2.form ≠ 1 ∧ e2.form ≠ 2 then none else some e2

end IGES_ENTITY_110

/-! ### Association

`IGES_ENTITY_110::associate` (entity110.cpp:49-65).  The base-class
association and the reference lists of other entities live outside the
given sources; the environment maps entity identifiers to their `refs`
lists. -/

/-- Reference-list environment: entity id to the ids in its `refs`. -/
abbrev RefEnv : Type := List (Nat × List Nat)

/-- Look up the `refs` list of entity `i`. -/
def envRefs (env : RefEnv) (i : Nat) : List Nat :=
  match List.find? (fun p => p.1 == i) env with
  | some p => p.2
  | none => []

/-- Modelled from the spec: `DelReference` removes the given parent from
the target's `refs` list. -/
def DelReference (env : RefEnv) (target self : Nat) : RefEnv :=
  List.map (fun p => if p.1 = target then (p.1, p.2.filter (fun x => x ≠ self)) else p) env

/-- `IGES_ENTITY_110::associate` (entity110.cpp:49-65): fail when the
base-class association fails; otherwise, when the structure pointer is
set, log a violation, call `DelReference(this)` on its target and clear
it.  `baseOK` stands for the base-class result, `self` for `this`; the
returned flag records whether the violation was logged. -/
def associate (baseOK : Bool) (self : Nat) (e : IGES_ENTITY_110) (env : RefEnv) :
    Option (IGES_ENTITY_110 × RefEnv × Bool) :=
  if baseOK = false then none
  else
    match e.pStructure with
    | some t => some ({ e with pStructure := none }, DelReference env t self, true)
    | none => some (e, env, false)

/-! ### Formatting parameter data

`IGES_ENTITY_110::format` (entity110.cpp:68-141) drives `FormatPDREAL`
and `AddPDItem` of `iges_io.cpp`; the latter is modelled from the spec:
items are gathered into 64-column records, an item never spans two
records, and each flushed record advances the parameter sequence
index. -/

/-- The running state of `format`: the line being assembled (`lstr`),
the finished records (`pdout`) and the parameter sequence index. -/
structure FmtState where
  lstr : List Char
  pdout : List (List Char)
  pdIndex : Int
  deriving DecidableEq

/-- Pad a record's payload to the 64 parameter columns. -/
def pad64 (l : List Char) : List Char := l ++ List.replicate (64 - l.length) ' '

/-- Flush the line under assembly as one padded record, advancing the
sequence index. -/
def flushRec (st : FmtState) : FmtState :=
  { lstr := [], pdout := st.pdout ++ [pad64 st.lstr], pdIndex := st.pdIndex + 1 }

/-- Modelled from the spec: `AddPDItem` (`iges_io.cpp`) appends one item
to the line under assembly, flushing a full record first when the item
would not fit, and flushing the line when the item carries the record
delimiter; each flushed record advances the sequence index. -/
def AddPDItem (tstr : List Char) (rd : Char) (st : FmtState) : FmtState :=
  let st1 := if 64 < st.lstr.length + tstr.length then flushRec st else st
  let st2 := { st1 with lstr := st1.lstr ++ tstr }
  if tstr.getLast? = some rd then flushRec st2 else st2

/-- Format a list of values, each with its trailing delimiter, feeding
every token through `AddPDItem`. -/
def formatItems (uir : ℚ) (rd : Char) : List (ℚ × Char) → FmtState → Option FmtState
  | [], st => some st
  | x :: rest, st =>
    match FormatPDReal x.1 x.2 uir with
    | none => none
    | some t => formatItems uir rd rest (AddPDItem t rd st)

/-- An optional pointer written as a signed integer field. -/
def formatIntToken (v : Int) (dl : Char) : List Char :=
  (if v < 0 then ['-'] else []) ++ natToDigs v.natAbs ++ [dl]

/-- Modelled from the spec: the optional trailing pointers are written as
integer fields, the last one closed by the record delimiter. -/
def formatExtraParams (rd pd : Char) : List Int → FmtState → FmtState
  | [], st => st
  | v :: rest, st =>
    if rest.isEmpty then AddPDItem (formatIntToken v rd) rd st
    else formatExtraParams rd pd rest (AddPDItem (formatIntToken v pd) rd st)

/-- Modelled from the spec: each stored comment line becomes one further
P-section record of its own. -/
def formatComments (cs : List (List Char)) (st : FmtState) : FmtState :=
  List.foldl (fun s c =>
    { s with pdout := s.pdout ++ [pad64 c], pdIndex := s.pdIndex + 1 }) st cs

namespace IGES_ENTITY_110

/-- The six coordinates with the delimiter each receives in
entity110.cpp:96-121: the parameter delimiter, except that the last
datum carries the record delimiter when there are no extras. -/
def coordDelims (e : IGES_ENTITY_110) (pd rd : Char) : List (ℚ × Char) :=
  [(e.X1, pd), (e.Y1, pd), (e.Z1, pd), (e.X2, pd), (e.Y2, pd),
   (e.Z2, if e.extras.isEmpty then rd else pd)]

/-- `IGES_ENTITY_110::format` (entity110.cpp:68-141).  Returns the
updated entity, the emitted records and the advanced sequence index.
`parent = none` models a missing parent `IGES` object. -/
def format (e : IGES_ENTITY_110) (parent : Option GlobalData) (index : Int) :
    Option (IGES_ENTITY_110 × List (List Char) × Int) :=
  if index < 1 ∨ 9999999 < index then none
  else
    match parent with
    | none => none
    | some g =>
      match formatItems g.minResolution g.rdelim (coordDelims e g.pdelim g.rdelim)
          { lstr := natToDigs 110 ++ [g.pdelim], pdout := [], pdIndex := index } with
      | none => none
      | some st1 =>
        let st2 := if e.extras.isEmpty then st1
          else formatExtraParams g.rdelim g.pdelim e.extras st1
        let st3 := formatComments e.comments st2
        some ({ e with parameterData := index, paramLineCount := st3.pdIndex - index },
          st3.pdout, st3.pdIndex)

/-- Modelled from the spec: `readExtraParams` consumes the optional
pointer fields up to and including the record delimiter. -/
def skipExtras (s : List Char) (rd : Char) : Option (List Char) :=
  match s.dropWhile (fun c => !(c == rd)) with
  | [] => none
  | _ :: r => some r

/-- `IGES_ENTITY_110::ReadPD` up to the conversion step
(entity110.cpp:206-276): locate the first parameter delimiter, check its
position, then parse the six reals; when the last real did not close the
record, consume the optional pointers. -/
def lineParsePD (pdraw : List Char) (g : GlobalData) :
    Option (ℚ × ℚ × ℚ × ℚ × ℚ × ℚ) :=
  let idx := pdraw.findIdx (· == g.pdelim)
  if idx < 1 ∨ 8 < idx then none
  else
    match ParseReal (pdraw.drop (idx + 1)) g.pdelim g.rdelim with
    | none => none
    | some (x1, s1, _) =>
      match ParseReal s1 g.pdelim g.rdelim with
      | none => none
      | some (y1, s2, _) =>
        match ParseReal s2 g.pdelim g.rdelim with
        | none => none
        | some (z1, s3, _) =>
          match ParseReal s3 g.pdelim g.rdelim with
          | none => none
          | some (x2, s4, _) =>
            match ParseReal s4 g.pdelim g.rdelim with
            | none => none
            | some (y2, s5, _) =>
              match ParseReal s5 g.pdelim g.rdelim with
              | none => none
              | some (z2, s6, eor) =>
                match (if eor then some s6 else skipExtras s6 g.rdelim) with
                | none => none
                | some _ => some (x1, y1, z1, x2, y2, z2)

/-- `IGES_ENTITY_110::ReadPD` (entity110.cpp:206-291): parse the six
coordinates into the entity, then multiply them by the conversion
factor when the model converts units. -/
def ReadPD (e : IGES_ENTITY_110) (pdraw : List Char) (g : GlobalData) :
    Option IGES_ENTITY_110 :=
  match lineParsePD pdraw g with
  | none => none
  | some (x1, y1, z1, x2, y2, z2) =>
    if g.convert then
      some { e with X1 := x1 * g.cf, Y1 := y1 * g.cf, Z1 := z1 * g.cf,
                    X2 := x2 * g.cf, Y2 := y2 * g.cf, Z2 := z2 * g.cf }
    else
      some { e with X1 := x1, Y1 := y1, Z1 := z1, X2 := x2, Y2 := y2, Z2 := z2 }

end IGES_ENTITY_110

/-! ### The external handle of entity 408

`dll_entity408.cpp`: every operation first checks the validity flag and
the wrapped pointer.  `GetDE`/`SetDE` of `IGES_ENTITY_408` are not among
the sources and are modelled from the spec (the instance holds an
offset, a scale and one pointer to a subfigure definition). -/

/-- The wrapped `IGES_ENTITY_408` state the handle touches. -/
structure IGES_ENTITY_408 where
  X : ℚ
  Y : ℚ
  Z : ℚ
  S : ℚ
  DE : Option Nat
  deriving DecidableEq

/-- The handle: its validity flag and the wrapped entity (`none` models
a null `m_entity`). -/
structure DLL_IGES_ENTITY_408 where
  m_valid : Bool
  m_entity : Option IGES_ENTITY_408
  deriving DecidableEq

namespace DLL_IGES_ENTITY_408

/-- `DLL_IGES_ENTITY_408::GetSubfigure` (dll_entity408.cpp:71-77); the
out-parameter keeps its previous value on failure.  `GetDE` is modelled
from the spec as returning the stored subfigure pointer. -/
def GetSubfigure (h : DLL_IGES_ENTITY_408) (aPtr : Option Nat) :
    Bool × Option Nat × DLL_IGES_ENTITY_408 :=
  match h.m_valid, h.m_entity with
  | true, some ip => (true, ip.DE, h)
  | _, _ => (false, aPtr, h)

/-- `DLL_IGES_ENTITY_408::SetSubfigure` (dll_entity408.cpp:80-86);
`SetDE` is modelled from the spec as storing the pointer. -/
def SetSubfigure (h : DLL_IGES_ENTITY_408) (aPtr : Option Nat) :
    Bool × DLL_IGES_ENTITY_408 :=
  match h.m_valid, h.m_entity with
  | true, some ip => (true, { h with m_entity := some { ip with DE := aPtr } })
  | _, _ => (false, h)

/-- `DLL_IGES_ENTITY_408::GetSubfigParams` (dll_entity408.cpp:89-100);
the out-parameters keep their previous values on failure. -/
def GetSubfigParams (h : DLL_IGES_ENTITY_408) (aX aY aZ aS : ℚ) :
    Bool × (ℚ × ℚ × ℚ × ℚ) × DLL_IGES_ENTITY_408 :=
  match h.m_valid, h.m_entity with
  | true, some ip => (true, (ip.X, ip.Y, ip.Z, ip.S), h)
  | _, _ => (false, (aX, aY, aZ, aS), h)

/-- `DLL_IGES_ENTITY_408::SetSubfigParams` (dll_entity408.cpp:103-114). -/
def SetSubfigParams (h : DLL_IGES_ENTITY_408) (aX aY aZ aS : ℚ) :
    Bool × DLL_IGES_ENTITY_408 :=
  match h.m_valid, h.m_entity with
  | true, some ip =>
      (true, { h with m_entity := some { X := aX, Y := aY, Z := aZ, S := aS, DE := ip.DE } })
  | _, _ => (false, h)

end DLL_IGES_ENTITY_408

/-! ### Entity creation through the handle constructor

`DLL_IGES_ENTITY_408::DLL_IGES_ENTITY_408` (dll_entity408.cpp:29-62):
with a parent model the entity comes from the model's `NewEntity`
factory; with a null parent it is allocated directly with `new`. -/

/-- How a typed entity came into existence. -/
inductive AllocPath where
  | viaFactory
  | viaNew
  deriving DecidableEq

/-- A freshly created entity: the path that allocated it and its owning
model, when one exists. -/
structure CreatedEntity where
  path : AllocPath
  owner : Option Nat
  deriving DecidableEq

/-- Modelled from the spec: `IGES::NewEntity` allocates the typed entity
and wires it to the owning model. -/
def NewEntity (m : Nat) : CreatedEntity := { path := AllocPath.viaFactory, owner := some m }

/-- The `IGES*` constructor (dll_entity408.cpp:29-45): with `create`
set, a non-null parent goes through `NewEntity`; a null parent allocates
`new IGES_ENTITY_408(NULL)` directly, with no owning model. -/
def dllCtor408 (aParent : Option Nat) (create : Bool) : Option CreatedEntity :=
  if create then
    match aParent with
    | some m => some (NewEntity m)
    | none => some { path := AllocPath.viaNew, owner := none }
  else none

/-- The `DLL_IGES&` constructor (dll_entity408.cpp:48-62): without
`create` or with a null raw model pointer nothing is created, otherwise
the entity comes from `NewEntity`. -/
def dllCtor408_wrapped (ip : Option Nat) (create : Bool) : Option CreatedEntity :=
  if !create then none
  else
    match ip with
    | none => none
    | some m => some (NewEntity m)

/-! ### Structure of the emitted records

The concatenated record payloads are the emitted tokens separated by the
blank runs that record padding introduces. -/

/-- The concatenation of the flushed records followed by the line still
under assembly. -/
def payload (st : FmtState) : List Char := st.pdout.flatten ++ st.lstr

/-- The emitted token sequence: each value's token, preceded by an
arbitrary blank run, followed by its delimiter; trailing blanks close
the sequence. -/
inductive SpacedToks (uir : ℚ) : List (ℚ × Char) → List Char → Prop where
  | nil (g : Nat) : SpacedToks uir [] (List.replicate g ' ')
  | cons (g : Nat) (q : ℚ) (dl : Char) (num s : List Char) (rest : List (ℚ × Char)) :
      formatRealNum (roundZ q uir) = some num →
      SpacedToks uir rest s →
      SpacedToks uir ((q, dl) :: rest) (List.replicate g ' ' ++ (num ++ dl :: s))

/-- A millimetre-file global section with default delimiters. -/
def wGD : GlobalData :=
  { pdelim := ',', rdelim := ';', minResolution := 1 / 1000, convert := true, cf := 1,
    unitsFlag := IGES_UNIT.UNIT_MILLIMETER }

/-- An inch-file global section with conversion enabled. -/
def wInch : GlobalData :=
  { pdelim := ',', rdelim := ';', minResolution := 1 / 1000, convert := true, cf := 254 / 10,
    unitsFlag := IGES_UNIT.UNIT_INCH }

/-- A Line from the origin to `(1, 2, 3)`. -/
def wLine : IGES_ENTITY_110 :=
  { form := 0, X1 := 0, Y1 := 0, Z1 := 0, X2 := 1, Y2 := 2, Z2 := 3,
    refs := [], depends := IGES_STAT_DEP.STAT_INDEPENDENT, «structure» := 0,
    hierarchy := IGES_STAT_HIER.STAT_HIER_ALL_SUB, parameterData := 0,
    paramLineCount := 0, extras := [], comments := [], pStructure := none }

/-- A Directory Entry record carrying an invalid form number. -/
def wDER : IGES_ENTITY_110.DERecord :=
  { form := 3, «structure» := 7, hierarchy := IGES_STAT_HIER.STAT_HIER_NO_SUB }

/-- A Directory Entry record with a valid form but stray structure and
hierarchy values. -/
def wDER0 : IGES_ENTITY_110.DERecord :=
  { form := 1, «structure» := 7, hierarchy := IGES_STAT_HIER.STAT_HIER_NO_SUB }

/-- An invalidated 408 handle that still wraps an entity. -/
def wH : DLL_IGES_ENTITY_408 :=
  { m_valid := false, m_entity := some { X := 1, Y := 2, Z := 3, S := 4, DE := some 5 } }

theorem natToDigsF_congr : ∀ n f g : Nat, n ≤ f → n ≤ g →
    natToDigsF f n = natToDigsF g n := by
  intro n
  induction n using Nat.strong_induction_on with
  | _ n ih =>
    intro f g hf hg
    match n, f, g, hf, hg with
    | 0, 0, 0, _, _ => rfl
    | 0, 0, _ + 1, _, _ => rfl
    | 0, _ + 1, 0, _, _ => rfl
    | 0, _ + 1, _ + 1, _, _ => rfl
    | m + 1, a + 1, b + 1, hf, hg =>
      show natToDigsF a ((m + 1) / 10) ++ _ = natToDigsF b ((m + 1) / 10) ++ _
      have hlt : (m + 1) / 10 < m + 1 := Nat.div_lt_self (Nat.succ_pos m) (by norm_num)
      rw [ih _ hlt a b (by omega) (by omega)]

theorem natToDigsAux_zero : natToDigsAux 0 = [] := rfl

theorem natToDigsAux_succ (m : Nat) :
    natToDigsAux (m + 1) = natToDigsAux ((m + 1) / 10) ++ [digitChar ((m + 1) % 10)] := by
  show natToDigsF m ((m + 1) / 10) ++ _ = natToDigsF ((m + 1) / 10) ((m + 1) / 10) ++ _
  have hlt : (m + 1) / 10 < m + 1 := Nat.div_lt_self (Nat.succ_pos m) (by norm_num)
  rw [natToDigsF_congr ((m + 1) / 10) m ((m + 1) / 10) (by omega) le_rfl]

theorem digitsToNat_append (a b : List Char) :
    digitsToNat (a ++ b) = digitsToNat a * 10 ^ b.length + digitsToNat b := by
  induction a with
  | nil => simp [digitsToNat]
  | cons c r ih =>
      simp only [List.cons_append, List.append_eq, digitsToNat, ih, List.length_append, pow_add]
      ring

theorem digToNat_digitChar {d : Nat} (h : d < 10) : digToNat (digitChar d) = d := by
  interval_cases d <;> rfl

theorem isDigit_digitChar {d : Nat} (h : d < 10) : (digitChar d).isDigit = true := by
  interval_cases d <;> rfl

theorem digitsToNat_natToDigsAux (n : Nat) : digitsToNat (natToDigsAux n) = n := by
  induction n using Nat.strong_induction_on with
  | _ n ih =>
    match n with
    | 0 => simp [natToDigsAux_zero, digitsToNat]
    | m + 1 =>
      rw [natToDigsAux_succ, digitsToNat_append]
      have hlt : (m + 1) / 10 < m + 1 := Nat.div_lt_self (Nat.succ_pos m) (by norm_num)
      rw [ih _ hlt]
      simp [digitsToNat, digToNat_digitChar (Nat.mod_lt _ (by norm_num : (0:Nat) < 10))]
      omega

theorem natToDigsAux_digits (n : Nat) : ∀ c ∈ natToDigsAux n, c.isDigit = true := by
  induction n using Nat.strong_induction_on with
  | _ n ih =>
    match n with
    | 0 => simp [natToDigsAux_zero]
    | m + 1 =>
      rw [natToDigsAux_succ]
      intro c hc
      rcases List.mem_append.mp hc with h | h
      · exact ih _ (Nat.div_lt_self (Nat.succ_pos m) (by norm_num)) c h
      · rcases List.mem_singleton.mp h with rfl
        exact isDigit_digitChar (Nat.mod_lt _ (by norm_num : (0:Nat) < 10))

theorem natToDigsAux_len {k n : Nat} (h : n < 10 ^ k) :
    (natToDigsAux n).length ≤ k := by
  induction k generalizing n with
  | zero =>
      interval_cases n
      simp [natToDigsAux_zero]
  | succ k ih =>
      match n with
      | 0 => simp [natToDigsAux_zero]
      | m + 1 =>
        rw [natToDigsAux_succ]
        have hlt : (m + 1) / 10 < 10 ^ k := by
          rw [Nat.div_lt_iff_lt_mul (by norm_num : (0:Nat) < 10)]
          calc m + 1 < 10 ^ (k + 1) := h
            _ = 10 ^ k * 10 := by ring
        have := ih hlt
        simp only [List.length_append, List.length_cons, List.length_nil]
        omega

theorem natToDigs_ne_nil (n : Nat) : natToDigs n ≠ [] := by
  unfold natToDigs
  split
  · simp
  · rename_i h
    match n, h with
    | m + 1, _ => rw [natToDigsAux_succ]; simp

theorem natToDigs_digits (n : Nat) : ∀ c ∈ natToDigs n, c.isDigit = true := by
  unfold natToDigs
  split
  · intro c hc; rcases List.mem_singleton.mp hc with rfl; rfl
  · exact natToDigsAux_digits n

theorem digitsToNat_natToDigs (n : Nat) : digitsToNat (natToDigs n) = n := by
  unfold natToDigs
  split
  · rename_i h; subst h; rfl
  · exact digitsToNat_natToDigsAux n

theorem digitsToNat_replicate_zero_append (z : Nat) (l : List Char) :
    digitsToNat (List.replicate z '0' ++ l) = digitsToNat l := by
  induction z with
  | zero => rfl
  | succ z ih =>
      rw [List.replicate_succ, List.cons_append]
      simp only [digitsToNat, ih]
      have : digToNat '0' = 0 := rfl
      simp [this]

theorem trimR_spec (l : List Char) : ∃ z, l = trimR l ++ List.replicate z '0' := by
  refine ⟨(l.reverse.takeWhile (· == '0')).length, ?_⟩
  have h1 : l.reverse.takeWhile (· == '0') ++ l.reverse.dropWhile (· == '0') = l.reverse :=
    List.takeWhile_append_dropWhile (· == '0') l.reverse
  have h2 : l.reverse.takeWhile (· == '0') =
      List.replicate (l.reverse.takeWhile (· == '0')).length '0' := by
    apply List.eq_replicate_of_mem
    intro c hc
    have := List.mem_takeWhile_imp hc
    exact eq_of_beq this
  calc l = l.reverse.reverse := (List.reverse_reverse l).symm
    _ = (l.reverse.takeWhile (· == '0') ++ l.reverse.dropWhile (· == '0')).reverse := by
          rw [h1]
    _ = trimR l ++ (l.reverse.takeWhile (· == '0')).reverse := by
          rw [List.reverse_append]; rfl
    _ = trimR l ++ List.replicate (l.reverse.takeWhile (· == '0')).length '0' := by
          nth_rewrite 1 [h2]
          rw [List.reverse_replicate]

theorem facCountF_congr : ∀ (n f g p : Nat), n ≤ f → n ≤ g →
    facCountF f p n = facCountF g p n := by
  intro n
  induction n using Nat.strong_induction_on with
  | _ n ih =>
    intro f g p hf hg
    match n, f, g, hf, hg with
    | 0, 0, 0, _, _ => rfl
    | 0, 0, _ + 1, _, _ => simp [facCountF]
    | 0, _ + 1, 0, _, _ => simp [facCountF]
    | 0, _ + 1, _ + 1, _, _ => simp [facCountF]
    | m + 1, a + 1, b + 1, hf, hg =>
      show (if _ then facCountF a p ((m + 1) / p) + 1 else 0)
        = (if _ then facCountF b p ((m + 1) / p) + 1 else 0)
      by_cases hcond : 2 ≤ p ∧ 0 < m + 1 ∧ (m + 1) % p = 0
      · rw [if_pos hcond, if_pos hcond]
        have hlt : (m + 1) / p < m + 1 := Nat.div_lt_self (Nat.succ_pos m) (by omega)
        rw [ih _ hlt a b p (by omega) (by omega)]
      · rw [if_neg hcond, if_neg hcond]

theorem facCount_of_dvd {p n : Nat} (hp : 2 ≤ p) (hn : 0 < n) (hd : n % p = 0) :
    facCount p n = facCount p (n / p) + 1 := by
  match n, hn with
  | m + 1, _ =>
    show (if _ then facCountF m p ((m + 1) / p) + 1 else 0) = _
    rw [if_pos ⟨hp, Nat.succ_pos m, hd⟩]
    have hlt : (m + 1) / p < m + 1 := Nat.div_lt_self (Nat.succ_pos m) (by omega)
    rw [facCountF_congr ((m + 1) / p) m ((m + 1) / p) p (by omega) le_rfl]
    rfl

theorem facCount_of_not_dvd {p n : Nat} (hd : ¬ (n % p = 0)) : facCount p n = 0 := by
  match n with
  | 0 => rfl
  | m + 1 =>
    show (if _ then facCountF m p ((m + 1) / p) + 1 else 0) = 0
    rw [if_neg]
    intro h
    exact hd h.2.2

theorem facCount_mul_coprime {p c : Nat} (hp : p.Prime) (hc : ¬ p ∣ c) (hcpos : 0 < c) :
    ∀ n, 0 < n → facCount p (c * n) = facCount p n := by
  intro n
  induction n using Nat.strong_induction_on with
  | _ n ih =>
    intro hn
    have h2p : 2 ≤ p := hp.two_le
    by_cases hd : p ∣ n
    · have hdm : (c * n) % p = 0 := Nat.dvd_iff_mod_eq_zero.mp (hd.mul_left c)
      have hdn : n % p = 0 := Nat.dvd_iff_mod_eq_zero.mp hd
      have hq : 0 < n / p := Nat.div_pos (Nat.le_of_dvd hn hd) (by omega)
      have hlt : n / p < n := Nat.div_lt_self hn (by omega)
      have hcn : 0 < c * n := Nat.mul_pos hcpos hn
      rw [facCount_of_dvd h2p hcn hdm, facCount_of_dvd h2p hn hdn,
        Nat.mul_div_assoc c hd, ih (n / p) hlt hq]
    · have hnd : ¬ p ∣ c * n := by
        intro h
        rcases (Nat.Prime.dvd_mul hp).mp h with h' | h'
        · exact hc h'
        · exact hd h'
      rw [facCount_of_not_dvd (fun h => hnd (Nat.dvd_iff_mod_eq_zero.mpr h)),
        facCount_of_not_dvd (fun h => hd (Nat.dvd_iff_mod_eq_zero.mpr h))]

theorem dvd_two_five : ∀ d : Nat, 0 < d → ∀ j : Nat, d ∣ 2 ^ j * 5 ^ j →
    d ∣ 2 ^ facCount 2 d * 5 ^ facCount 5 d := by
  intro d
  induction d using Nat.strong_induction_on with
  | _ d ih =>
    intro hd j hdvd
    by_cases h2 : 2 ∣ d
    · obtain ⟨d', rfl⟩ := h2
      have hd' : 0 < d' := by omega
      have hj : 1 ≤ j := by
        by_contra hj
        have : j = 0 := by omega
        subst this
        simp at hdvd
      have hdvd' : d' ∣ 2 ^ (j - 1) * 5 ^ j := by
        have : 2 * d' ∣ 2 * (2 ^ (j - 1) * 5 ^ j) := by
          have h2j : 2 ^ j = 2 * 2 ^ (j - 1) := by
            rw [← pow_succ']
            congr 1
            omega
          calc 2 * d' ∣ 2 ^ j * 5 ^ j := hdvd
            _ = 2 * (2 ^ (j - 1) * 5 ^ j) := by rw [h2j]; ring
        exact (mul_dvd_mul_iff_left (by norm_num : (2:Nat) ≠ 0)).mp this
      have hdvd'' : d' ∣ 2 ^ j * 5 ^ j :=
        hdvd'.trans (mul_dvd_mul (pow_dvd_pow 2 (by omega)) dvd_rfl)
      have hih := ih d' (by omega) hd' j hdvd''
      have hf2 : facCount 2 (2 * d') = facCount 2 d' + 1 := by
        rw [facCount_of_dvd (by norm_num) (by omega)
          (Nat.dvd_iff_mod_eq_zero.mp (Dvd.intro d' rfl)),
          Nat.mul_div_cancel_left d' (by norm_num)]
      have hf5 : facCount 5 (2 * d') = facCount 5 d' :=
        facCount_mul_coprime (by norm_num) (by norm_num) (by norm_num) d' hd'
      rw [hf2, hf5, pow_succ]
      calc 2 * d' ∣ 2 * (2 ^ facCount 2 d' * 5 ^ facCount 5 d') :=
            mul_dvd_mul_left 2 hih
        _ = 2 ^ facCount 2 d' * 2 * 5 ^ facCount 5 d' := by ring
    · by_cases h5 : 5 ∣ d
      · obtain ⟨d', rfl⟩ := h5
        have hd' : 0 < d' := by omega
        have hj : 1 ≤ j := by
          by_contra hj
          have : j = 0 := by omega
          subst this
          simp at hdvd
        have hdvd' : d' ∣ 2 ^ j * 5 ^ (j - 1) := by
          have : 5 * d' ∣ 5 * (2 ^ j * 5 ^ (j - 1)) := by
            have h5j : 5 ^ j = 5 * 5 ^ (j - 1) := by
              rw [← pow_succ']
              congr 1
              omega
            calc 5 * d' ∣ 2 ^ j * 5 ^ j := hdvd
              _ = 5 * (2 ^ j * 5 ^ (j - 1)) := by rw [h5j]; ring
          exact (mul_dvd_mul_iff_left (by norm_num : (5:Nat) ≠ 0)).mp this
        have hdvd'' : d' ∣ 2 ^ j * 5 ^ j :=
          hdvd'.trans (mul_dvd_mul dvd_rfl (pow_dvd_pow 5 (by omega)))
        have hih := ih d' (by omega) hd' j hdvd''
        have hf5 : facCount 5 (5 * d') = facCount 5 d' + 1 := by
          rw [facCount_of_dvd (by norm_num) (by omega)
            (Nat.dvd_iff_mod_eq_zero.mp (Dvd.intro d' rfl)),
            Nat.mul_div_cancel_left d' (by norm_num)]
        have hf2 : facCount 2 (5 * d') = facCount 2 d' :=
          facCount_mul_coprime (by norm_num) (by norm_num) (by norm_num) d' hd'
        rw [hf2, hf5, pow_succ]
        calc 5 * d' ∣ 5 * (2 ^ facCount 2 d' * 5 ^ facCount 5 d') :=
              mul_dvd_mul_left 5 hih
          _ = 2 ^ facCount 2 d' * (5 ^ facCount 5 d' * 5) := by ring
      · have hc2 : Nat.Coprime d 2 :=
          ((Nat.Prime.coprime_iff_not_dvd Nat.prime_two).mpr h2).symm
        have hc5 : Nat.Coprime d 5 :=
          ((Nat.Prime.coprime_iff_not_dvd Nat.prime_five).mpr h5).symm
        have hc : Nat.Coprime d (2 ^ j * 5 ^ j) :=
          Nat.Coprime.mul_right (hc2.pow_right j) (hc5.pow_right j)
        have hone : d = 1 := Nat.Coprime.eq_one_of_dvd hc hdvd
        subst hone
        exact one_dvd _

theorem den_dvd_of_isDec {q : ℚ} (h : IsDec q) : (q.den : Nat) ∣ 10 ^ decScale q := by
  obtain ⟨m, k, hmk⟩ := h
  have hden : (q.den : Nat) ∣ 10 ^ k := by
    have hq : Rat.divInt m (10 ^ k) = q := by
      rw [Rat.divInt_eq_div]
      push_cast
      rw [← hmk]
      field_simp
    have hdd := Rat.den_dvd m (10 ^ k : ℤ)
    rw [hq] at hdd
    have : ((q.den : ℤ)) ∣ ((10 ^ k : ℕ) : ℤ) := by push_cast; exact hdd
    exact_mod_cast this
  have h25 : (q.den : Nat) ∣ 2 ^ k * 5 ^ k := by
    have h10 : (10 : Nat) ^ k = 2 ^ k * 5 ^ k := by
      rw [← mul_pow]; norm_num
    rwa [h10] at hden
  have hkey := dvd_two_five q.den q.den_pos k h25
  calc (q.den : Nat) ∣ 2 ^ facCount 2 q.den * 5 ^ facCount 5 q.den := hkey
    _ ∣ 2 ^ decScale q * 5 ^ decScale q :=
        mul_dvd_mul (pow_dvd_pow 2 (le_max_left _ _)) (pow_dvd_pow 5 (le_max_right _ _))
    _ = 10 ^ decScale q := by rw [← mul_pow]; norm_num

theorem formatRealNum_some {q : ℚ} (h : IsDec q) : ∃ num, formatRealNum q = some num := by
  rw [formatRealNum, if_pos (Nat.dvd_iff_mod_eq_zero.mp (den_dvd_of_isDec h))]
  exact ⟨_, rfl⟩

theorem decMantissa_cast {q : ℚ} (h : (q.den : Nat) ∣ 10 ^ decScale q) :
    ((decMantissa q : Int) : ℚ) = q * 10 ^ decScale q := by
  have hzd : ((q.den : Int)) ∣ (10 : Int) ^ decScale q := by
    have := Int.natCast_dvd_natCast.mpr h
    push_cast at this
    exact this
  have hcancel : ((10 : Int) ^ decScale q / (q.den : Int)) * (q.den : Int)
      = (10 : Int) ^ decScale q := Int.ediv_mul_cancel hzd
  have hden0 : ((q.den : ℚ)) ≠ 0 := by
    exact_mod_cast q.den_nz
  have hqden : (q.num : ℚ) = q * (q.den : ℚ) :=
    (div_eq_iff hden0).mp (Rat.num_div_den q)
  apply mul_right_cancel₀ hden0
  calc ((decMantissa q : Int) : ℚ) * (q.den : ℚ)
      = ((decMantissa q * (q.den : Int) : Int) : ℚ) := by push_cast; ring
    _ = ((q.num * ((10 : Int) ^ decScale q / (q.den : Int)) * (q.den : Int) : Int) : ℚ) := rfl
    _ = ((q.num * (10 : Int) ^ decScale q : Int) : ℚ) := by
          rw [mul_assoc, hcancel]
    _ = (q.num : ℚ) * 10 ^ decScale q := by push_cast; ring
    _ = q * (q.den : ℚ) * 10 ^ decScale q := by rw [hqden]
    _ = q * 10 ^ decScale q * (q.den : ℚ) := by ring

theorem decMantissa_neg_iff {q : ℚ} (h : (q.den : Nat) ∣ 10 ^ decScale q) :
    decMantissa q < 0 ↔ q < 0 := by
  have hc := decMantissa_cast h
  constructor
  · intro hm
    by_contra hq
    push_neg at hq
    have h1 : (0:ℚ) ≤ q * 10 ^ decScale q := mul_nonneg hq (by positivity)
    rw [← hc] at h1
    have h2 : (0 : Int) ≤ decMantissa q := by exact_mod_cast h1
    omega
  · intro hq
    have : q * 10 ^ decScale q < 0 := mul_neg_of_neg_of_pos hq (by positivity)
    rw [← hc] at this
    exact_mod_cast this

theorem parseSign_cons_of_ne {c : Char} (h1 : c ≠ '-') (h2 : c ≠ '+') (r : List Char) :
    parseSign (c :: r) = (false, c :: r) := by
  unfold parseSign
  split
  · rename_i heq; injection heq with h3 _; exact absurd h3 h1
  · rename_i heq; injection heq with h3 _; exact absurd h3 h2
  · rfl

theorem takeWhile_digits_append {l : List Char} (hl : ∀ c ∈ l, c.isDigit = true)
    {c : Char} (hc : c.isDigit = false) (r : List Char) :
    (l ++ c :: r).takeWhile Char.isDigit = l ∧
    (l ++ c :: r).dropWhile Char.isDigit = c :: r := by
  induction l with
  | nil => simp [List.takeWhile_cons, List.dropWhile_cons, hc]
  | cons a t ih =>
      have ha : a.isDigit = true := hl a (List.mem_cons_self a t)
      have iht := ih (fun x hx => hl x (List.mem_cons_of_mem a hx))
      simp only [List.cons_append, List.takeWhile_cons, List.dropWhile_cons, ha]
      simp only [if_true, iht.1, iht.2, and_self, reduceIte]

theorem dropWhile_space_replicate (g : Nat) (x : List Char) :
    (List.replicate g ' ' ++ x).dropWhile (· == ' ') = x.dropWhile (· == ' ') := by
  induction g with
  | zero => rfl
  | succ g ih =>
      rw [List.replicate_succ, List.cons_append, List.dropWhile_cons]
      simp only [ih]
      simp

theorem dropWhile_space_of_head {c : Char} (hc : (c == ' ') = false) (r : List Char) :
    (c :: r).dropWhile (· == ' ') = c :: r := by
  rw [List.dropWhile_cons]
  simp [hc]

theorem isDigit_ne_space {c : Char} (h : c.isDigit = true) : (c == ' ') = false := by
  by_contra hne
  have : c = ' ' := by
    cases hb : (c == ' ') with
    | true => exact eq_of_beq hb
    | false => exact absurd hb hne
  subst this
  exact absurd h (by decide)

theorem isDigit_ne_minus {c : Char} (h : c.isDigit = true) : c ≠ '-' := by
  intro hc; subst hc; exact absurd h (by decide)

theorem isDigit_ne_plus {c : Char} (h : c.isDigit = true) : c ≠ '+' := by
  intro hc; subst hc; exact absurd h (by decide)

theorem digitsToNat_replicate_zero (z : Nat) : digitsToNat (List.replicate z '0') = 0 := by
  have := digitsToNat_replicate_zero_append z []
  simpa using this

/-- Structure and value of an emitted real token: sign, non-empty integer
digits, a decimal point, fraction digits, and the `D0` exponent; the
digits encode `|q|` exactly. -/
theorem formatRealNum_value {q : ℚ} {num : List Char} (h : formatRealNum q = some num) :
    ∃ ipds T : List Char,
      num = (if q < 0 then ['-'] else []) ++ ipds ++ '.' :: T ++ ['D', '0'] ∧
      ipds ≠ [] ∧ (∀ c ∈ ipds, c.isDigit = true) ∧ (∀ c ∈ T, c.isDigit = true) ∧
      (digitsToNat ipds : ℚ) + (digitsToNat T : ℚ) / 10 ^ T.length = |q| := by
  rw [formatRealNum] at h
  split at h
  case isFalse => exact Option.noConfusion h
  case isTrue hdvd =>
    injection h with hnum
    have hdvd' : (q.den : Nat) ∣ 10 ^ decScale q := Nat.dvd_iff_mod_eq_zero.mpr hdvd
    have hcast : ((decMantissa q : Int) : ℚ) = q * 10 ^ decScale q := decMantissa_cast hdvd'
    set K := decScale q with hKdef
    set n := (decMantissa q).natAbs with hndef
    set fp := n % 10 ^ K with hfpdef
    set ip := n / 10 ^ K with hipdef
    set digs := natToDigsAux fp with hdigsdef
    set frac := List.replicate (K - digs.length) '0' ++ digs with hfracdef
    set T := trimR frac with hTdef
    have hpow_pos : (0 : Nat) < 10 ^ K := Nat.pos_pow_of_pos _ (by norm_num)
    have hpowQ_pos : (0 : ℚ) < (10 : ℚ) ^ K := by positivity
    have hnQ : ((n : Nat) : ℚ) = |q| * 10 ^ K := by
      have h1 : ((n : Nat) : ℚ) = |((decMantissa q : Int) : ℚ)| := by
        rw [hndef]
        push_cast [Int.cast_natAbs]
        ring
      rw [h1, hcast, abs_mul, abs_of_pos hpowQ_pos]
    have hfp_lt : fp < 10 ^ K := Nat.mod_lt _ hpow_pos
    have hlen : digs.length ≤ K := natToDigsAux_len hfp_lt
    have hfrac_val : digitsToNat frac = fp := by
      rw [hfracdef, hdigsdef, digitsToNat_replicate_zero_append, digitsToNat_natToDigsAux]
    have hfrac_len : frac.length = K := by
      rw [hfracdef]
      simp only [List.length_append, List.length_replicate]
      omega
    obtain ⟨z, hz⟩ := trimR_spec frac
    rw [← hTdef] at hz
    refine ⟨natToDigs ip, T, hnum.symm, natToDigs_ne_nil _, natToDigs_digits _, ?_, ?_⟩
    · intro c hc
      have hcmem : c ∈ frac := by
        rw [hz]
        exact List.mem_append_left _ hc
      rw [hfracdef] at hcmem
      rcases List.mem_append.mp hcmem with hm | hm
      · rcases List.eq_of_mem_replicate hm with rfl
        rfl
      · rw [hdigsdef] at hm
        exact natToDigsAux_digits _ c hm
    · -- the value identity
      have hTz : T.length + z = K := by
        have hlenz := congrArg List.length hz
        simp only [List.length_append, List.length_replicate] at hlenz
        omega
      have hTval : digitsToNat T * 10 ^ z = fp := by
        have hdz := congrArg digitsToNat hz
        rw [hfrac_val, digitsToNat_append, digitsToNat_replicate_zero,
          List.length_replicate] at hdz
        omega
      rw [digitsToNat_natToDigs]
      have hfrac_div : (digitsToNat T : ℚ) / 10 ^ T.length = ((fp : Nat) : ℚ) / 10 ^ K := by
        rw [← hTz, pow_add]
        have hfpQ : ((fp : Nat) : ℚ) = (digitsToNat T : ℚ) * 10 ^ z := by
          exact_mod_cast congrArg (fun a : Nat => (a : ℚ)) hTval.symm
        rw [hfpQ]
        have h10z : (0:ℚ) < 10 ^ z := by positivity
        field_simp
        ring
      rw [hfrac_div]
      -- now `ip + fp / 10^K = |q|`
      have hdm : 10 ^ K * ip + fp = n := Nat.div_add_mod _ _
      have hcastdm : ((10 ^ K * ip + fp : Nat) : ℚ) = |q| * 10 ^ K := by
        rw [hdm]; exact hnQ
      push_cast at hcastdm
      have hne : ((10:ℚ) ^ K) ≠ 0 := ne_of_gt hpowQ_pos
      field_simp
      linarith [hcastdm]

theorem parseExpPart_D0 {c : Char} (hc : c.isDigit = false) (rest : List Char) :
    parseExpPart ('D' :: '0' :: c :: rest) = some (0, c :: rest) := by
  have hps : parseSign ('0' :: c :: rest) = (false, '0' :: c :: rest) :=
    parseSign_cons_of_ne (by decide) (by decide) _
  have htw := takeWhile_digits_append (l := ['0'])
    (by intro x hx; rcases List.mem_singleton.mp hx with rfl; rfl) hc rest
  have htw1 : ('0' :: c :: rest).takeWhile Char.isDigit = ['0'] := by
    simpa using htw.1
  have htw2 : ('0' :: c :: rest).dropWhile Char.isDigit = c :: rest := by
    simpa using htw.2
  simp only [parseExpPart, hps, htw1, htw2]
  have h0 : digitsToNat ['0'] = 0 := rfl
  simp [h0]

theorem parseAfterSign_token {ipds T : List Char} (hne : ipds ≠ [])
    (hipds : ∀ c ∈ ipds, c.isDigit = true) (hT : ∀ c ∈ T, c.isDigit = true)
    {c : Char} (hc : c.isDigit = false) (rest : List Char) (neg : Bool) :
    parseAfterSign neg (ipds ++ '.' :: (T ++ 'D' :: '0' :: c :: rest))
      = some (mantissaVal neg ipds T, c :: rest) := by
  have h1 := takeWhile_digits_append hipds
    (by decide : ('.' : Char).isDigit = false) (T ++ 'D' :: '0' :: c :: rest)
  have h2 := takeWhile_digits_append hT
    (by decide : ('D' : Char).isDigit = false) ('0' :: c :: rest)
  have hfrac : fracPart ((ipds ++ '.' :: (T ++ 'D' :: '0' :: c :: rest)).dropWhile Char.isDigit)
      = (T, 'D' :: '0' :: c :: rest) := by
    rw [h1.2]
    simp only [fracPart]
    exact Prod.ext h2.1 h2.2
  have hipdsE : ipds.isEmpty = false := by
    cases ipds with
    | nil => exact absurd rfl hne
    | cons a l => rfl
  simp only [parseAfterSign, hfrac, h1.1, hipdsE, Bool.false_and, Bool.false_eq_true,
    if_false, parseExpPart_D0 hc rest]
  rw [zpow_zero, mul_one]

theorem dropWhile_space_of_digits {l : List Char} (hl : ∀ c ∈ l, c.isDigit = true)
    (hne : l ≠ []) (r : List Char) : (l ++ r).dropWhile (· == ' ') = l ++ r := by
  cases l with
  | nil => exact absurd rfl hne
  | cons a t =>
      rw [List.cons_append]
      exact dropWhile_space_of_head (isDigit_ne_space (hl a (List.mem_cons_self a t))) _

theorem parseSign_digits {l : List Char} (hl : ∀ c ∈ l, c.isDigit = true)
    (hne : l ≠ []) (r : List Char) : parseSign (l ++ r) = (false, l ++ r) := by
  cases l with
  | nil => exact absurd rfl hne
  | cons a t =>
      rw [List.cons_append]
      have ha := hl a (List.mem_cons_self a t)
      exact parseSign_cons_of_ne (isDigit_ne_minus ha) (isDigit_ne_plus ha) _

theorem parseRealNum_token {q : ℚ} {num : List Char} (h : formatRealNum q = some num)
    {c : Char} (hc : c.isDigit = false) (rest : List Char) (g : Nat) :
    parseRealNum (List.replicate g ' ' ++ (num ++ c :: rest)) = some (q, c :: rest) := by
  obtain ⟨ipds, T, hshape, hne, hipds, hT, hval⟩ := formatRealNum_value h
  have hnorm : num ++ c :: rest
      = (if q < 0 then ['-'] else []) ++ (ipds ++ '.' :: (T ++ 'D' :: '0' :: c :: rest)) := by
    rw [hshape]
    simp [List.append_assoc]
  by_cases hq : q < 0
  · rw [hnorm, if_pos hq]
    have hsingle : (['-'] : List Char) ++ (ipds ++ '.' :: (T ++ 'D' :: '0' :: c :: rest))
        = '-' :: (ipds ++ '.' :: (T ++ 'D' :: '0' :: c :: rest)) := rfl
    rw [hsingle]
    have hdropA : (List.replicate g ' '
        ++ ('-' :: (ipds ++ '.' :: (T ++ 'D' :: '0' :: c :: rest)))).dropWhile (· == ' ')
        = '-' :: (ipds ++ '.' :: (T ++ 'D' :: '0' :: c :: rest)) := by
      rw [dropWhile_space_replicate]
      exact dropWhile_space_of_head (by decide) _
    simp only [parseRealNum, hdropA, parseSign,
      parseAfterSign_token hne hipds hT hc rest true]
    have hq' : mantissaVal true ipds T = q := by
      rw [mantissaVal, if_pos rfl, hval, abs_of_neg hq]
      ring
    rw [hq']
  · rw [hnorm, if_neg hq, List.nil_append]
    have hdropA : (List.replicate g ' '
        ++ (ipds ++ '.' :: (T ++ 'D' :: '0' :: c :: rest))).dropWhile (· == ' ')
        = ipds ++ '.' :: (T ++ 'D' :: '0' :: c :: rest) := by
      rw [dropWhile_space_replicate]
      exact dropWhile_space_of_digits hipds hne _
    simp only [parseRealNum, hdropA, parseSign_digits hipds hne,
      parseAfterSign_token hne hipds hT hc rest false]
    have hq' : mantissaVal false ipds T = q := by
      rw [mantissaVal, if_neg (by simp), hval, abs_of_nonneg (not_lt.mp hq)]
      ring
    rw [hq']

theorem ParseReal_token {q : ℚ} {num : List Char} (h : formatRealNum q = some num)
    {pd rd dl : Char} (hdl : dl = pd ∨ dl = rd) (hpd : pd.isDigit = false)
    (hrd : rd.isDigit = false) (hpr : pd ≠ rd) (rest : List Char) (g : Nat) :
    ParseReal (List.replicate g ' ' ++ (num ++ dl :: rest)) pd rd
      = some (q, rest, decide (dl = rd)) := by
  have hdld : dl.isDigit = false := by
    rcases hdl with rfl | rfl
    · exact hpd
    · exact hrd
  simp only [ParseReal, parseRealNum_token h hdld rest g]
  rcases hdl with rfl | rfl
  · rw [if_pos rfl, decide_eq_false hpr]
  · rw [if_neg (fun hh => hpr hh.symm), if_pos rfl, decide_eq_true rfl]

theorem flatten_pad64 (P : List (List Char)) (l : List Char) :
    (P ++ [pad64 l]).flatten = P.flatten ++ (l ++ List.replicate (64 - l.length) ' ') := by
  rw [List.flatten_append]
  simp [pad64]

theorem payload_flushRec (st : FmtState) :
    payload (flushRec st) = payload st ++ List.replicate (64 - st.lstr.length) ' ' := by
  simp [payload, flushRec, pad64, List.flatten_append, List.append_assoc]

theorem payload_addLstr (st : FmtState) (t : List Char) :
    payload { st with lstr := st.lstr ++ t } = payload st ++ t := by
  simp [payload, List.append_assoc]

theorem addPDItem_payload (t : List Char) (rd : Char) (st : FmtState) :
    ∃ a b : Nat, payload (AddPDItem t rd st)
      = payload st ++ (List.replicate a ' ' ++ (t ++ List.replicate b ' ')) := by
  rw [AddPDItem]
  by_cases h1 : 64 < st.lstr.length + t.length
  · rw [if_pos h1]
    by_cases h2 : t.getLast? = some rd
    · rw [if_pos h2]
      refine ⟨64 - st.lstr.length, 64 - (flushRec st).lstr.length - t.length, ?_⟩
      rw [payload_flushRec, payload_addLstr, payload_flushRec]
      simp [flushRec, List.append_assoc]
    · rw [if_neg h2]
      refine ⟨64 - st.lstr.length, 0, ?_⟩
      rw [payload_addLstr, payload_flushRec]
      simp [List.append_assoc]
  · rw [if_neg h1]
    by_cases h2 : t.getLast? = some rd
    · rw [if_pos h2]
      refine ⟨0, 64 - ({ st with lstr := st.lstr ++ t } : FmtState).lstr.length, ?_⟩
      rw [payload_flushRec, payload_addLstr]
      simp [List.append_assoc]
    · rw [if_neg h2]
      refine ⟨0, 0, ?_⟩
      rw [payload_addLstr]
      simp

theorem flushRec_index (st : FmtState) :
    (flushRec st).pdIndex - ((flushRec st).pdout.length : Int)
      = st.pdIndex - (st.pdout.length : Int) := by
  simp only [flushRec, List.length_append, List.length_cons, List.length_nil]
  push_cast
  ring

theorem addPDItem_index (t : List Char) (rd : Char) (st : FmtState) :
    (AddPDItem t rd st).pdIndex - ((AddPDItem t rd st).pdout.length : Int)
      = st.pdIndex - (st.pdout.length : Int) := by
  rw [AddPDItem]
  by_cases h1 : 64 < st.lstr.length + t.length
  · rw [if_pos h1]
    by_cases h2 : t.getLast? = some rd
    · rw [if_pos h2]
      rw [show ({ flushRec st with lstr := (flushRec st).lstr ++ t } : FmtState).pdout
            = (flushRec st).pdout from rfl] at *
      calc (flushRec { flushRec st with lstr := (flushRec st).lstr ++ t }).pdIndex
            - ((flushRec { flushRec st with lstr := (flushRec st).lstr ++ t }).pdout.length : Int)
          = ({ flushRec st with lstr := (flushRec st).lstr ++ t } : FmtState).pdIndex
            - (({ flushRec st with lstr := (flushRec st).lstr ++ t } : FmtState).pdout.length : Int) :=
            flushRec_index _
        _ = (flushRec st).pdIndex - ((flushRec st).pdout.length : Int) := rfl
        _ = st.pdIndex - (st.pdout.length : Int) := flushRec_index st
    · rw [if_neg h2]
      calc ({ flushRec st with lstr := (flushRec st).lstr ++ t } : FmtState).pdIndex
            - (({ flushRec st with lstr := (flushRec st).lstr ++ t } : FmtState).pdout.length : Int)
          = (flushRec st).pdIndex - ((flushRec st).pdout.length : Int) := rfl
        _ = st.pdIndex - (st.pdout.length : Int) := flushRec_index st
  · rw [if_neg h1]
    by_cases h2 : t.getLast? = some rd
    · rw [if_pos h2]
      calc (flushRec { st with lstr := st.lstr ++ t }).pdIndex
            - ((flushRec { st with lstr := st.lstr ++ t }).pdout.length : Int)
          = ({ st with lstr := st.lstr ++ t } : FmtState).pdIndex
            - (({ st with lstr := st.lstr ++ t } : FmtState).pdout.length : Int) :=
            flushRec_index _
        _ = st.pdIndex - (st.pdout.length : Int) := rfl
    · rw [if_neg h2]

theorem addPDItem_lstr {t : List Char} (rd : Char) (st : FmtState)
    (h : t.getLast? = some rd) : (AddPDItem t rd st).lstr = [] := by
  rw [AddPDItem]
  by_cases h1 : 64 < st.lstr.length + t.length
  · rw [if_pos h1, if_pos h]
    rfl
  · rw [if_neg h1, if_pos h]
    rfl

theorem spacedToks_pad {uir : ℚ} {items : List (ℚ × Char)} {s : List Char}
    (h : SpacedToks uir items s) (g : Nat) :
    SpacedToks uir items (List.replicate g ' ' ++ s) := by
  cases h with
  | nil g' =>
      rw [← List.replicate_add]
      exact SpacedToks.nil _
  | cons g' q dl num s' rest hnum hrest =>
      rw [← List.append_assoc, ← List.replicate_add]
      exact SpacedToks.cons _ q dl num s' rest hnum hrest

theorem formatItems_nil (uir : ℚ) (rd : Char) (st : FmtState) :
    formatItems uir rd [] st = some st := rfl

theorem formatItems_cons (uir : ℚ) (rd : Char) (x : ℚ × Char) (rest : List (ℚ × Char))
    (st : FmtState) :
    formatItems uir rd (x :: rest) st
      = match FormatPDReal x.1 x.2 uir with
        | none => none
        | some t => formatItems uir rd rest (AddPDItem t rd st) := rfl

theorem formatItems_payload {uir : ℚ} {rd : Char} :
    ∀ (items : List (ℚ × Char)) (st st' : FmtState),
      formatItems uir rd items st = some st' →
      ∃ tail, payload st' = payload st ++ tail ∧ SpacedToks uir items tail := by
  intro items
  induction items with
  | nil =>
      intro st st' h
      injection h with h
      subst h
      exact ⟨[], by simp, SpacedToks.nil 0⟩
  | cons x rest ih =>
      intro st st' h
      obtain ⟨q, dl⟩ := x
      rw [formatItems_cons] at h
      split at h
      · exact Option.noConfusion h
      · rename_i t ht
        obtain ⟨num, hnum, rfl⟩ : ∃ num, formatRealNum (roundZ q uir) = some num
            ∧ t = num ++ [dl] := by
          rw [FormatPDReal] at ht
          cases hfr : formatRealNum (roundZ q uir) with
          | none => rw [hfr] at ht; exact Option.noConfusion ht
          | some num =>
              rw [hfr] at ht
              injection ht with ht
              exact ⟨num, rfl, ht.symm⟩
        obtain ⟨tail1, htail1, hsp1⟩ := ih (AddPDItem (num ++ [dl]) rd st) st' h
        obtain ⟨a, b, hab⟩ := addPDItem_payload (num ++ [dl]) rd st
        refine ⟨List.replicate a ' ' ++ (num ++ dl :: (List.replicate b ' ' ++ tail1)), ?_, ?_⟩
        · rw [htail1, hab]
          simp [List.append_assoc]
        · exact SpacedToks.cons a q dl num _ rest hnum (spacedToks_pad hsp1 b)

theorem formatItems_index {uir : ℚ} {rd : Char} :
    ∀ (items : List (ℚ × Char)) (st st' : FmtState),
      formatItems uir rd items st = some st' →
      st'.pdIndex - (st'.pdout.length : Int) = st.pdIndex - (st.pdout.length : Int) := by
  intro items
  induction items with
  | nil =>
      intro st st' h
      injection h with h
      subst h
      rfl
  | cons x rest ih =>
      intro st st' h
      obtain ⟨q, dl⟩ := x
      rw [formatItems_cons] at h
      split at h
      · exact Option.noConfusion h
      · rename_i t ht
        rw [ih (AddPDItem t rd st) st' h, addPDItem_index]

theorem formatItems_some (uir : ℚ) (rd : Char) :
    ∀ (items : List (ℚ × Char)) (st : FmtState),
      (∀ x ∈ items, IsDec (roundZ x.1 uir)) →
      ∃ st', formatItems uir rd items st = some st' := by
  intro items
  induction items with
  | nil => intro st _; exact ⟨st, rfl⟩
  | cons x rest ih =>
      intro st hdec
      obtain ⟨q, dl⟩ := x
      obtain ⟨num, hnum⟩ := formatRealNum_some (hdec (q, dl) (List.mem_cons_self _ _))
      obtain ⟨st', hst'⟩ := ih (AddPDItem (num ++ [dl]) rd st)
        (fun y hy => hdec y (List.mem_cons_of_mem _ hy))
      refine ⟨st', ?_⟩
      rw [formatItems_cons, FormatPDReal, hnum]
      exact hst'

theorem formatItems_lstr {uir : ℚ} {rd : Char} :
    ∀ (items : List (ℚ × Char)) (st st' : FmtState),
      formatItems uir rd items st = some st' →
      items ≠ [] → (∀ p, items.getLast? = some p → p.2 = rd) →
      st'.lstr = [] := by
  intro items
  induction items with
  | nil => intro st st' _ hne _; exact absurd rfl hne
  | cons x rest ih =>
      intro st st' h _ hlast
      obtain ⟨q, dl⟩ := x
      rw [formatItems_cons] at h
      split at h
      · exact Option.noConfusion h
      · rename_i t ht
        have htlast : t.getLast? = some dl := by
          rw [FormatPDReal] at ht
          cases hfr : formatRealNum (roundZ q uir) with
          | none => rw [hfr] at ht; exact Option.noConfusion ht
          | some num =>
              rw [hfr] at ht
              injection ht with ht
              rw [← ht, List.getLast?_concat]
        cases hrest : rest with
        | nil =>
            subst hrest
            rw [formatItems_nil] at h
            injection h with h
            subst h
            have hdl : dl = rd := hlast (q, dl) rfl
            subst hdl
            exact addPDItem_lstr _ _ htlast
        | cons y ys =>
            subst hrest
            refine ih _ st' h (by simp) ?_
            intro p hp
            refine hlast p ?_
            rw [List.getLast?_cons_cons]
            exact hp

theorem formatExtraParams_cons (rd pd : Char) (v : Int) (rest : List Int) (st : FmtState) :
    formatExtraParams rd pd (v :: rest) st
      = if rest.isEmpty then AddPDItem (formatIntToken v rd) rd st
        else formatExtraParams rd pd rest (AddPDItem (formatIntToken v pd) rd st) := rfl

theorem formatExtraParams_index (rd pd : Char) :
    ∀ (vs : List Int) (st : FmtState),
      (formatExtraParams rd pd vs st).pdIndex
          - ((formatExtraParams rd pd vs st).pdout.length : Int)
        = st.pdIndex - (st.pdout.length : Int) := by
  intro vs
  induction vs with
  | nil => intro st; rfl
  | cons v rest ih =>
      intro st
      rw [formatExtraParams_cons]
      by_cases h : rest.isEmpty
      · rw [if_pos h, addPDItem_index]
      · rw [if_neg h, ih, addPDItem_index]

theorem formatComments_index :
    ∀ (cs : List (List Char)) (st : FmtState),
      (formatComments cs st).pdIndex - ((formatComments cs st).pdout.length : Int)
        = st.pdIndex - (st.pdout.length : Int) := by
  intro cs
  induction cs with
  | nil => intro st; rfl
  | cons c rest ih =>
      intro st
      have hstep : formatComments (c :: rest) st
          = formatComments rest
              { st with pdout := st.pdout ++ [pad64 c], pdIndex := st.pdIndex + 1 } := rfl
      rw [hstep, ih]
      simp only [List.length_append, List.length_cons, List.length_nil]
      push_cast
      ring

theorem spacedToks_parse {uir : ℚ} {pd rd : Char} (hpd : pd.isDigit = false)
    (hrd : rd.isDigit = false) (hpr : pd ≠ rd) {q : ℚ} {dl : Char}
    {rest : List (ℚ × Char)} {s : List Char}
    (h : SpacedToks uir ((q, dl) :: rest) s) (hdl : dl = pd ∨ dl = rd) :
    ∃ s', ParseReal s pd rd = some (roundZ q uir, s', decide (dl = rd))
      ∧ SpacedToks uir rest s' := by
  cases h with
  | cons g q dl num s' rest hnum hrest =>
      exact ⟨s', ParseReal_token hnum hdl hpd hrd hpr s' g, hrest⟩

theorem findIdx_110 {pd : Char} (hpd : pd.isDigit = false) (tail : List Char) :
    (('1' :: '1' :: '0' :: pd :: tail)).findIdx (· == pd) = 3 := by
  have hne1 : ('1' == pd) = false := by
    apply beq_eq_false_iff_ne.mpr
    intro h
    rw [← h] at hpd
    exact absurd hpd (by decide)
  have hne0 : ('0' == pd) = false := by
    apply beq_eq_false_iff_ne.mpr
    intro h
    rw [← h] at hpd
    exact absurd hpd (by decide)
  simp [List.findIdx_cons, hne1, hne0]

theorem roundZ_close (q u : ℚ) : |roundZ q u - q| ≤ max u (1 / 1000000000000) := by
  rw [roundZ]
  split
  · rename_i h
    rw [zero_sub, abs_neg]
    exact le_trans (le_of_lt h) (le_max_left _ _)
  · rw [sub_self, abs_zero]
    exact le_trans (by norm_num) (le_max_right u (1 / 1000000000000))

theorem isDec_roundZ {q : ℚ} (h : IsDec q) (u : ℚ) : IsDec (roundZ q u) := by
  rw [roundZ]
  split
  · exact ⟨0, 0, by norm_num⟩
  · exact h

/-- C1: round-trip law for the Line entity (type 110).  Formatting the
parameter data of a Line whose coordinates are decimal rationals (every
IEEE double is one) and parsing the produced parameter block back with
`ReadPD` under the same delimiters and with conversion factor `cf = 1`
yields endpoint coordinates that agree with the originals
field-for-field within `max(minResolution, 1e-12)`. -/
theorem C1_line_roundtrip (e e' : IGES_ENTITY_110) (g : GlobalData) (i : Int)
    (hi1 : 1 ≤ i) (hi2 : i ≤ 9999999)
    (hpd : g.pdelim.isDigit = false) (hrd : g.rdelim.isDigit = false)
    (hne : g.pdelim ≠ g.rdelim)
    (hX1 : IsDec e.X1) (hY1 : IsDec e.Y1) (hZ1 : IsDec e.Z1)
    (hX2 : IsDec e.X2) (hY2 : IsDec e.Y2) (hZ2 : IsDec e.Z2)
    (hex : e.extras = []) (hcm : e.comments = []) (hcf : g.cf = 1) :
    ∃ (efmt : IGES_ENTITY_110) (recs : List (List Char)) (iEnd : Int)
      (eread : IGES_ENTITY_110),
      IGES_ENTITY_110.format e (some g) i = some (efmt, recs, iEnd) ∧
      IGES_ENTITY_110.ReadPD e' recs.flatten g = some eread ∧
      |eread.X1 - e.X1| ≤ max g.minResolution (1 / 1000000000000) ∧
      |eread.Y1 - e.Y1| ≤ max g.minResolution (1 / 1000000000000) ∧
      |eread.Z1 - e.Z1| ≤ max g.minResolution (1 / 1000000000000) ∧
      |eread.X2 - e.X2| ≤ max g.minResolution (1 / 1000000000000) ∧
      |eread.Y2 - e.Y2| ≤ max g.minResolution (1 / 1000000000000) ∧
      |eread.Z2 - e.Z2| ≤ max g.minResolution (1 / 1000000000000) := by
  have hitems : IGES_ENTITY_110.coordDelims e g.pdelim g.rdelim
      = [(e.X1, g.pdelim), (e.Y1, g.pdelim), (e.Z1, g.pdelim), (e.X2, g.pdelim),
         (e.Y2, g.pdelim), (e.Z2, g.rdelim)] := by
    simp [IGES_ENTITY_110.coordDelims, hex]
  have hdecs : ∀ x ∈ ([(e.X1, g.pdelim), (e.Y1, g.pdelim), (e.Z1, g.pdelim), (e.X2, g.pdelim),
         (e.Y2, g.pdelim), (e.Z2, g.rdelim)] : List (ℚ × Char)),
      IsDec (roundZ x.1 g.minResolution) := by
    intro x hx
    simp only [List.mem_cons, List.not_mem_nil, or_false] at hx
    rcases hx with rfl | rfl | rfl | rfl | rfl | rfl
    · exact isDec_roundZ hX1 _
    · exact isDec_roundZ hY1 _
    · exact isDec_roundZ hZ1 _
    · exact isDec_roundZ hX2 _
    · exact isDec_roundZ hY2 _
    · exact isDec_roundZ hZ2 _
  obtain ⟨st1, hst1⟩ := formatItems_some g.minResolution g.rdelim _
    { lstr := natToDigs 110 ++ [g.pdelim], pdout := [], pdIndex := i } hdecs
  -- the format call
  have hfmt : IGES_ENTITY_110.format e (some g) i
      = some ({ e with parameterData := i, paramLineCount := st1.pdIndex - i },
          st1.pdout, st1.pdIndex) := by
    delta IGES_ENTITY_110.format
    rw [if_neg (show ¬(i < 1 ∨ 9999999 < i) by omega)]
    simp only [hitems, hst1, hex, hcm, List.isEmpty_nil, if_true]
    rfl
  -- the payload of the emitted records
  obtain ⟨tail, htail, hsp⟩ := formatItems_payload _ _ _ hst1
  have hlstr : st1.lstr = [] := by
    refine formatItems_lstr _ _ _ hst1 (by simp) ?_
    intro p hp
    simp only [List.getLast?_cons_cons, List.getLast?_singleton, Option.some.injEq] at hp
    rw [← hp]
  have hflat : st1.pdout.flatten = '1' :: '1' :: '0' :: g.pdelim :: tail := by
    have hpay := htail
    rw [payload, payload, hlstr, List.append_nil] at hpay
    rw [hpay]
    rfl
  -- parse the six tokens back
  obtain ⟨s1, hP1, hsp1⟩ := spacedToks_parse hpd hrd hne hsp (Or.inl rfl)
  obtain ⟨s2, hP2, hsp2⟩ := spacedToks_parse hpd hrd hne hsp1 (Or.inl rfl)
  obtain ⟨s3, hP3, hsp3⟩ := spacedToks_parse hpd hrd hne hsp2 (Or.inl rfl)
  obtain ⟨s4, hP4, hsp4⟩ := spacedToks_parse hpd hrd hne hsp3 (Or.inl rfl)
  obtain ⟨s5, hP5, hsp5⟩ := spacedToks_parse hpd hrd hne hsp4 (Or.inl rfl)
  obtain ⟨s6, hP6, hsp6⟩ := spacedToks_parse hpd hrd hne hsp5 (Or.inr rfl)
  rw [decide_eq_false hne] at hP1 hP2 hP3 hP4 hP5
  rw [decide_eq_true rfl] at hP6
  have hdrop : ('1' :: '1' :: '0' :: g.pdelim :: tail).drop (3 + 1) = tail := rfl
  have hparse : IGES_ENTITY_110.lineParsePD st1.pdout.flatten g
      = some (roundZ e.X1 g.minResolution, roundZ e.Y1 g.minResolution,
          roundZ e.Z1 g.minResolution, roundZ e.X2 g.minResolution,
          roundZ e.Y2 g.minResolution, roundZ e.Z2 g.minResolution) := by
    rw [IGES_ENTITY_110.lineParsePD, hflat]
    simp only [findIdx_110 hpd tail]
    rw [if_neg (by norm_num)]
    rw [hdrop, hP1]
    simp only [hP2, hP3, hP4, hP5, hP6]
    rfl
  -- read back with cf = 1
  by_cases hcv : g.convert
  · refine ⟨{ e with parameterData := i, paramLineCount := st1.pdIndex - i },
      st1.pdout, st1.pdIndex,
      { e' with
        X1 := roundZ e.X1 g.minResolution * g.cf, Y1 := roundZ e.Y1 g.minResolution * g.cf,
        Z1 := roundZ e.Z1 g.minResolution * g.cf, X2 := roundZ e.X2 g.minResolution * g.cf,
        Y2 := roundZ e.Y2 g.minResolution * g.cf, Z2 := roundZ e.Z2 g.minResolution * g.cf },
      hfmt, ?_, ?_, ?_, ?_, ?_, ?_, ?_⟩
    · rw [IGES_ENTITY_110.ReadPD]
      simp only [hparse]
      rw [if_pos hcv]
    all_goals
      simp only [hcf, mul_one]
      exact roundZ_close _ _
  · refine ⟨{ e with parameterData := i, paramLineCount := st1.pdIndex - i },
      st1.pdout, st1.pdIndex,
      { e' with
        X1 := roundZ e.X1 g.minResolution, Y1 := roundZ e.Y1 g.minResolution,
        Z1 := roundZ e.Z1 g.minResolution, X2 := roundZ e.X2 g.minResolution,
        Y2 := roundZ e.Y2 g.minResolution, Z2 := roundZ e.Z2 g.minResolution },
      hfmt, ?_, ?_, ?_, ?_, ?_, ?_, ?_⟩
    · rw [IGES_ENTITY_110.ReadPD]
      simp only [hparse]
      rw [if_neg hcv]
    all_goals
      exact roundZ_close _ _

/-- C2: on load, the six endpoint coordinates are multiplied by the
conversion factor `cf` derived from the unit flag: each stored value is
the parsed value times `cf`, applied exactly once; when the unit flag is
millimetres or conversion is off, the stored values equal the parsed
values unchanged, and when conversion is on for a non-millimetre flag
the values are scaled by that unit's length in millimetres. -/
theorem C2_unit_conversion (e : IGES_ENTITY_110) (pdraw : List Char) (g : GlobalData)
    (x1 y1 z1 x2 y2 z2 : ℚ)
    (hcf : g.cf = deriveCF g.unitsFlag g.convert)
    (hp : IGES_ENTITY_110.lineParsePD pdraw g = some (x1, y1, z1, x2, y2, z2)) :
    ∃ e', IGES_ENTITY_110.ReadPD e pdraw g = some e' ∧
      (e'.X1 = x1 * g.cf ∧ e'.Y1 = y1 * g.cf ∧ e'.Z1 = z1 * g.cf ∧
       e'.X2 = x2 * g.cf ∧ e'.Y2 = y2 * g.cf ∧ e'.Z2 = z2 * g.cf) ∧
      ((g.unitsFlag = IGES_UNIT.UNIT_MILLIMETER ∨ g.convert = false) →
        e'.X1 = x1 ∧ e'.Y1 = y1 ∧ e'.Z1 = z1 ∧
        e'.X2 = x2 ∧ e'.Y2 = y2 ∧ e'.Z2 = z2) ∧
      (g.convert = true ∧ g.unitsFlag ≠ IGES_UNIT.UNIT_MILLIMETER →
        e'.X1 = x1 * unitToMM g.unitsFlag ∧ e'.Y1 = y1 * unitToMM g.unitsFlag ∧
        e'.Z1 = z1 * unitToMM g.unitsFlag ∧ e'.X2 = x2 * unitToMM g.unitsFlag ∧
        e'.Y2 = y2 * unitToMM g.unitsFlag ∧ e'.Z2 = z2 * unitToMM g.unitsFlag) := by
  by_cases hcv : g.convert
  · refine ⟨{ e with
        X1 := x1 * g.cf, Y1 := y1 * g.cf, Z1 := z1 * g.cf,
        X2 := x2 * g.cf, Y2 := y2 * g.cf, Z2 := z2 * g.cf }, ?_, ?_, ?_, ?_⟩
    · rw [IGES_ENTITY_110.ReadPD]
      simp only [hp]
      rw [if_pos hcv]
    · exact ⟨rfl, rfl, rfl, rfl, rfl, rfl⟩
    · intro hmm
      have hone : g.cf = 1 := by
        rcases hmm with hmm | hmm
        · rw [hcf, deriveCF, hmm]
          simp
        · exact absurd hmm (by simp [hcv])
      simp [hone]
    · intro ⟨_, hflag⟩
      have hval : g.cf = unitToMM g.unitsFlag := by
        rw [hcf, deriveCF, if_pos ⟨hcv, hflag⟩]
      simp [hval]
  · refine ⟨{ e with
        X1 := x1, Y1 := y1, Z1 := z1, X2 := x2, Y2 := y2, Z2 := z2 },
      ?_, ?_, ?_, ?_⟩
    · rw [IGES_ENTITY_110.ReadPD]
      simp only [hp]
      rw [if_neg hcv]
    · have hone : g.cf = 1 := by
        rw [hcf, deriveCF, if_neg]
        intro hand
        exact hcv hand.1
      simp [hone]
    · intro _
      exact ⟨rfl, rfl, rfl, rfl, rfl, rfl⟩
    · intro ⟨hcv', _⟩
      exact absurd hcv' (by simpa using hcv)

/-- Unfolding of `format` at a present parent, used to analyse a
successful call. -/
theorem format_some_eq (e : IGES_ENTITY_110) (g : GlobalData) (i : Int) :
    IGES_ENTITY_110.format e (some g) i
      = if i < 1 ∨ 9999999 < i then none
        else
          match formatItems g.minResolution g.rdelim
              (IGES_ENTITY_110.coordDelims e g.pdelim g.rdelim)
              { lstr := natToDigs 110 ++ [g.pdelim], pdout := [], pdIndex := i } with
          | none => none
          | some st1 =>
            some ({ e with parameterData := i, paramLineCount :=
                  (formatComments e.comments (if e.extras.isEmpty then st1
                    else formatExtraParams g.rdelim g.pdelim e.extras st1)).pdIndex - i },
              (formatComments e.comments (if e.extras.isEmpty then st1
                else formatExtraParams g.rdelim g.pdelim e.extras st1)).pdout,
              (formatComments e.comments (if e.extras.isEmpty then st1
                else formatExtraParams g.rdelim g.pdelim e.extras st1)).pdIndex) := rfl

/-- Changing only the entity's stored `paramLineCount` does not change
what `format` does: the count is computed, never taken from the
caller. -/
theorem format_plc_irrelevant (e : IGES_ENTITY_110) (p : Option GlobalData) (i v : Int) :
    IGES_ENTITY_110.format { e with paramLineCount := v } p i
      = IGES_ENTITY_110.format e p i := by
  cases e
  rfl

/-- C3: after a successful `format(index)` call the entity's
`paramLineCount` equals the number of P-section records emitted, which
also equals the amount by which the call advanced the sequence index;
and the count is computed by `format`, never taken from a caller-set
value. -/
theorem C3_paramLineCount (e e' : IGES_ENTITY_110) (g : GlobalData) (i iEnd : Int)
    (recs : List (List Char))
    (h : IGES_ENTITY_110.format e (some g) i = some (e', recs, iEnd)) :
    e'.paramLineCount = recs.length ∧ e'.paramLineCount = iEnd - i ∧
    (∀ v, IGES_ENTITY_110.format { e with paramLineCount := v } (some g) i
        = IGES_ENTITY_110.format e (some g) i) := by
  rw [format_some_eq] at h
  split at h
  · exact Option.noConfusion h
  · split at h
    · exact Option.noConfusion h
    · rename_i st1 hst1
      simp only [Option.some.injEq, Prod.mk.injEq] at h
      obtain ⟨hE, hR, hI⟩ := h
      have hidx : (formatComments e.comments (if e.extras.isEmpty then st1
            else formatExtraParams g.rdelim g.pdelim e.extras st1)).pdIndex
          - ((formatComments e.comments (if e.extras.isEmpty then st1
            else formatExtraParams g.rdelim g.pdelim e.extras st1)).pdout.length : Int)
          = i := by
        rw [formatComments_index]
        have hst2 : (if e.extras.isEmpty then st1
              else formatExtraParams g.rdelim g.pdelim e.extras st1).pdIndex
            - ((if e.extras.isEmpty then st1
              else formatExtraParams g.rdelim g.pdelim e.extras st1).pdout.length : Int)
            = st1.pdIndex - (st1.pdout.length : Int) := by
          by_cases hx : e.extras.isEmpty
          · rw [if_pos hx]
          · rw [if_neg hx, formatExtraParams_index]
        rw [hst2, formatItems_index _ _ _ hst1]
        simp
      have hplc : e'.paramLineCount
          = (formatComments e.comments (if e.extras.isEmpty then st1
              else formatExtraParams g.rdelim g.pdelim e.extras st1)).pdIndex - i := by
        rw [← hE]
      refine ⟨?_, ?_, fun v => format_plc_irrelevant e (some g) i v⟩
      · rw [hplc, ← hR]
        omega
      · rw [hplc, ← hI]

/-- C4: the Line's form-number whitelist is `{0, 1, 2}`: `ReadDE` fails
for every other form number in the Directory Entry, and `SetEntityForm`
rejects any other value leaving the stored form unchanged, while
accepting and storing `0`, `1` and `2`. -/
theorem C4_form_whitelist :
    (∀ (e : IGES_ENTITY_110) (r : IGES_ENTITY_110.DERecord) (ok : Bool),
        (r.form ≠ 0 ∧ r.form ≠ 1 ∧ r.form ≠ 2) →
        IGES_ENTITY_110.ReadDE e r ok = none) ∧
    (∀ (e : IGES_ENTITY_110) (f : Int), (f ≠ 0 ∧ f ≠ 1 ∧ f ≠ 2) →
        IGES_ENTITY_110.SetEntityForm e f = (false, e)) ∧
    (∀ (e : IGES_ENTITY_110) (f : Int), (f = 0 ∨ f = 1 ∨ f = 2) →
        IGES_ENTITY_110.SetEntityForm e f = (true, { e with form := f })) := by
  refine ⟨?_, ?_, ?_⟩
  · intro e r ok hbad
    cases ok with
    | false => rfl
    | true =>
        simp only [IGES_ENTITY_110.ReadDE, IGES_ENTITY_110.baseReadDE, if_true]
        rw [if_pos]
        exact hbad
  · intro e f hbad
    rw [IGES_ENTITY_110.SetEntityForm, if_pos hbad]
  · intro e f hgood
    rw [IGES_ENTITY_110.SetEntityForm, if_neg]
    intro hbad
    rcases hgood with rfl | rfl | rfl
    · exact hbad.1 rfl
    · exact hbad.2.1 rfl
    · exact hbad.2.2 rfl

theorem not_mem_delRef (t self : Nat) :
    ∀ env : RefEnv, self ∉ envRefs (DelReference env t self) t := by
  intro env
  induction env with
  | nil =>
      simp [envRefs, DelReference]
  | cons p rest ih =>
      obtain ⟨k, rs⟩ := p
      by_cases hk : k = t
      · subst hk
        rw [DelReference, List.map_cons, if_pos rfl]
        rw [envRefs]
        rw [List.find?_cons_of_pos _ (by simp)]
        intro hmem
        rw [List.mem_filter] at hmem
        have := hmem.2
        simp at this
      · rw [DelReference, List.map_cons, if_neg hk]
        rw [envRefs]
        rw [List.find?_cons_of_neg _ (by simp [hk])]
        exact ih

/-- C5: `associate` fails when the base-class association fails; when it
succeeds with a non-null structure pointer, the pointer is cleared, the
former target's `refs` list no longer contains this entity, and the
violation is logged (the returned flag). -/
theorem C5_associate_structure :
    (∀ (self : Nat) (e : IGES_ENTITY_110) (env : RefEnv),
        associate false self e env = none) ∧
    (∀ (self : Nat) (e : IGES_ENTITY_110) (env : RefEnv) (t : Nat),
        e.pStructure = some t →
        ∃ e' env', associate true self e env = some (e', env', true) ∧
          e'.pStructure = none ∧ self ∉ envRefs env' t) := by
  constructor
  · intro self e env
    rfl
  · intro self e env t hps
    refine ⟨{ e with pStructure := none }, DelReference env t self, ?_, rfl,
      not_mem_delRef t self env⟩
    rw [associate, if_neg (by simp)]
    rw [hps]

/-- C6: for the coordinate-bearing Line entity, `rescale a` then
`rescale b` produces the same entity as a single `rescale (a * b)`, and
`rescale` always returns `true`. -/
theorem C6_rescale_compose (e : IGES_ENTITY_110) (a b : ℚ) :
    (IGES_ENTITY_110.rescale (IGES_ENTITY_110.rescale e a).2 b).2
      = (IGES_ENTITY_110.rescale e (a * b)).2 ∧
    (∀ (e2 : IGES_ENTITY_110) (sf : ℚ), (IGES_ENTITY_110.rescale e2 sf).1 = true) := by
  constructor
  · cases e
    simp [IGES_ENTITY_110.rescale, mul_assoc]
  · intro e2 sf
    rfl

/-- C7: every operation of the external 408 handle refuses to act when
the validity flag is false or the wrapped pointer is null: it returns
`false`, writes none of its output parameters, and leaves the wrapped
entity unchanged. -/
theorem C7_handle_guards (h : DLL_IGES_ENTITY_408)
    (hbad : h.m_valid = false ∨ h.m_entity = none) :
    (∀ aPtr, DLL_IGES_ENTITY_408.GetSubfigure h aPtr = (false, aPtr, h)) ∧
    (∀ aPtr, DLL_IGES_ENTITY_408.SetSubfigure h aPtr = (false, h)) ∧
    (∀ aX aY aZ aS, DLL_IGES_ENTITY_408.GetSubfigParams h aX aY aZ aS
        = (false, (aX, aY, aZ, aS), h)) ∧
    (∀ aX aY aZ aS, DLL_IGES_ENTITY_408.SetSubfigParams h aX aY aZ aS = (false, h)) := by
  obtain ⟨v, ent⟩ := h
  simp only [] at hbad
  refine ⟨fun aPtr => ?_, fun aPtr => ?_, fun aX aY aZ aS => ?_, fun aX aY aZ aS => ?_⟩ <;>
  · rcases hbad with hb | hb
    · rw [show v = false from hb]
      cases ent <;> rfl
    · rw [show ent = none from hb]
      cases v <;> rfl

/-- C8 counterexample: it is not the case that every entity created
through the handle constructor comes from the model factory with an
owner — the constructor with a null parent allocates directly with
`new` and assigns no owning model. -/
theorem C8_counterexample :
    ¬ ∀ (p : Option Nat) (c : Bool) (ent : CreatedEntity),
        dllCtor408 p c = some ent →
          ent.path = AllocPath.viaFactory ∧ ent.owner.isSome = true := by
  intro hall
  have hcontra := hall none true { path := AllocPath.viaNew, owner := none } rfl
  exact absurd hcontra.1 (by simp)

/-- C8 (amended): entities created through either 408 handle constructor
with a model present come from the model's `NewEntity` factory with that
model as owner; the `IGES*` constructor with a null parent instead
allocates the entity directly with `new`, with no owning model. -/
theorem C8_factory_amended :
    (∀ (m : Nat) (c : Bool) (ent : CreatedEntity),
        dllCtor408 (some m) c = some ent →
          ent.path = AllocPath.viaFactory ∧ ent.owner = some m) ∧
    (∀ ent, dllCtor408 none true = some ent →
        ent.path = AllocPath.viaNew ∧ ent.owner = none) ∧
    (∀ (ip : Option Nat) (c : Bool) (ent : CreatedEntity),
        dllCtor408_wrapped ip c = some ent →
          ent.path = AllocPath.viaFactory ∧ ent.owner = ip) := by
  refine ⟨?_, ?_, ?_⟩
  · intro m c ent h
    cases c with
    | false => exact Option.noConfusion h
    | true =>
        injection h with h
        rw [← h]
        exact ⟨rfl, rfl⟩
  · intro ent h
    injection h with h
    rw [← h]
    exact ⟨rfl, rfl⟩
  · intro ip c ent h
    cases c with
    | false => exact Option.noConfusion h
    | true =>
        cases ip with
        | none => exact Option.noConfusion h
        | some m =>
            injection h with h
            rw [← h]
            exact ⟨rfl, rfl⟩

/-- C9: `IsOrphaned` returns true exactly when the `refs` list is empty
and the subordinate-status sub-field is not `STAT_INDEPENDENT`. -/
theorem C9_isOrphaned (e : IGES_ENTITY_110) :
    IGES_ENTITY_110.IsOrphaned e = true ↔
      (e.refs = [] ∧ e.depends ≠ IGES_STAT_DEP.STAT_INDEPENDENT) := by
  rw [IGES_ENTITY_110.IsOrphaned]
  split
  · rename_i hc
    simp only [List.isEmpty_iff] at hc
    simp [hc.1, hc.2]
  · rename_i hc
    constructor
    · intro hfalse
      exact Bool.noConfusion hfalse
    · intro hand
      exact absurd ⟨List.isEmpty_iff.mpr hand.1, hand.2⟩ hc

/-- C10: after every successful `ReadDE`, the structure field is `0` and
the hierarchy field is `STAT_HIER_ALL_SUB`, whatever the file's
Directory Entry carried. -/
theorem C10_readDE_overrides (e : IGES_ENTITY_110) (r : IGES_ENTITY_110.DERecord)
    (ok : Bool) (e' : IGES_ENTITY_110)
    (h : IGES_ENTITY_110.ReadDE e r ok = some e') :
    e'.«structure» = 0 ∧ e'.hierarchy = IGES_STAT_HIER.STAT_HIER_ALL_SUB := by
  cases ok with
  | false => exact Option.noConfusion h
  | true =>
      simp only [IGES_ENTITY_110.ReadDE, IGES_ENTITY_110.baseReadDE, if_true] at h
      split at h
      · exact Option.noConfusion h
      · injection h with h
        rw [← h]
        exact ⟨rfl, rfl⟩

theorem C1_line_roundtrip_witness :
    ∃ (efmt : IGES_ENTITY_110) (recs : List (List Char)) (iEnd : Int)
      (eread : IGES_ENTITY_110),
      IGES_ENTITY_110.format wLine (some wGD) 1 = some (efmt, recs, iEnd) ∧
      IGES_ENTITY_110.ReadPD wLine recs.flatten wGD = some eread ∧
      |eread.X1 - wLine.X1| ≤ max wGD.minResolution (1 / 1000000000000) ∧
      |eread.Y1 - wLine.Y1| ≤ max wGD.minResolution (1 / 1000000000000) ∧
      |eread.Z1 - wLine.Z1| ≤ max wGD.minResolution (1 / 1000000000000) ∧
      |eread.X2 - wLine.X2| ≤ max wGD.minResolution (1 / 1000000000000) ∧
      |eread.Y2 - wLine.Y2| ≤ max wGD.minResolution (1 / 1000000000000) ∧
      |eread.Z2 - wLine.Z2| ≤ max wGD.minResolution (1 / 1000000000000) :=
  C1_line_roundtrip wLine wLine wGD 1 (by norm_num) (by norm_num)
    (by decide) (by decide) (by decide)
    ⟨0, 0, by norm_num [wLine]⟩ ⟨0, 0, by norm_num [wLine]⟩ ⟨0, 0, by norm_num [wLine]⟩
    ⟨1, 0, by norm_num [wLine]⟩ ⟨2, 0, by norm_num [wLine]⟩ ⟨3, 0, by norm_num [wLine]⟩
    rfl rfl rfl

theorem C2_unit_conversion_witness :
    ∃ e', IGES_ENTITY_110.ReadPD wLine ("110,1.,2.,3.,4.,5.,6.;".data) wInch = some e' ∧
      (e'.X1 = 1 * wInch.cf ∧ e'.Y1 = 2 * wInch.cf ∧ e'.Z1 = 3 * wInch.cf ∧
       e'.X2 = 4 * wInch.cf ∧ e'.Y2 = 5 * wInch.cf ∧ e'.Z2 = 6 * wInch.cf) ∧
      ((wInch.unitsFlag = IGES_UNIT.UNIT_MILLIMETER ∨ wInch.convert = false) →
        e'.X1 = 1 ∧ e'.Y1 = 2 ∧ e'.Z1 = 3 ∧ e'.X2 = 4 ∧ e'.Y2 = 5 ∧ e'.Z2 = 6) ∧
      (wInch.convert = true ∧ wInch.unitsFlag ≠ IGES_UNIT.UNIT_MILLIMETER →
        e'.X1 = 1 * unitToMM wInch.unitsFlag ∧ e'.Y1 = 2 * unitToMM wInch.unitsFlag ∧
        e'.Z1 = 3 * unitToMM wInch.unitsFlag ∧ e'.X2 = 4 * unitToMM wInch.unitsFlag ∧
        e'.Y2 = 5 * unitToMM wInch.unitsFlag ∧ e'.Z2 = 6 * unitToMM wInch.unitsFlag) :=
  C2_unit_conversion wLine ("110,1.,2.,3.,4.,5.,6.;".data) wInch 1 2 3 4 5 6
    (by with_unfolding_all rfl) (by with_unfolding_all rfl)

theorem C3_paramLineCount_witness :
    ({ wLine with parameterData := 1, paramLineCount := 1 } : IGES_ENTITY_110).paramLineCount
        = ([pad64 "110,0.D0,0.D0,0.D0,1.D0,2.D0,3.D0;".data] : List (List Char)).length ∧
    ({ wLine with parameterData := 1, paramLineCount := 1 } : IGES_ENTITY_110).paramLineCount
        = 2 - 1 ∧
    (∀ v, IGES_ENTITY_110.format { wLine with paramLineCount := v } (some wGD) 1
        = IGES_ENTITY_110.format wLine (some wGD) 1) :=
  C3_paramLineCount wLine { wLine with parameterData := 1, paramLineCount := 1 } wGD 1 2
    [pad64 "110,0.D0,0.D0,0.D0,1.D0,2.D0,3.D0;".data] (by with_unfolding_all rfl)

theorem C4_form_whitelist_witness :
    IGES_ENTITY_110.ReadDE wLine wDER true = none ∧
    IGES_ENTITY_110.SetEntityForm wLine 5 = (false, wLine) ∧
    IGES_ENTITY_110.SetEntityForm wLine 1 = (true, { wLine with form := 1 }) :=
  ⟨C4_form_whitelist.1 wLine wDER true (by decide),
   C4_form_whitelist.2.1 wLine 5 (by decide),
   C4_form_whitelist.2.2 wLine 1 (by decide)⟩

theorem C5_associate_structure_witness :
    associate false 7 wLine [(2, [7, 9])] = none ∧
    ∃ e' env', associate true 7 { wLine with pStructure := some 2 } [(2, [7, 9])]
        = some (e', env', true) ∧ e'.pStructure = none ∧ 7 ∉ envRefs env' 2 :=
  ⟨C5_associate_structure.1 7 wLine [(2, [7, 9])],
   C5_associate_structure.2 7 { wLine with pStructure := some 2 } [(2, [7, 9])] 2 rfl⟩

theorem C7_handle_guards_witness :
    (∀ aPtr, DLL_IGES_ENTITY_408.GetSubfigure wH aPtr = (false, aPtr, wH)) ∧
    (∀ aPtr, DLL_IGES_ENTITY_408.SetSubfigure wH aPtr = (false, wH)) ∧
    (∀ aX aY aZ aS, DLL_IGES_ENTITY_408.GetSubfigParams wH aX aY aZ aS
        = (false, (aX, aY, aZ, aS), wH)) ∧
    (∀ aX aY aZ aS, DLL_IGES_ENTITY_408.SetSubfigParams wH aX aY aZ aS = (false, wH)) :=
  C7_handle_guards wH (Or.inl rfl)

theorem C8_factory_amended_witness :
    ((NewEntity 5).path = AllocPath.viaFactory ∧ (NewEntity 5).owner = some 5) ∧
    (({ path := AllocPath.viaNew, owner := none } : CreatedEntity).path = AllocPath.viaNew ∧
      ({ path := AllocPath.viaNew, owner := none } : CreatedEntity).owner = none) ∧
    ((NewEntity 9).path = AllocPath.viaFactory ∧ (NewEntity 9).owner = some 9) :=
  ⟨C8_factory_amended.1 5 true (NewEntity 5) rfl,
   C8_factory_amended.2.1 { path := AllocPath.viaNew, owner := none } rfl,
   C8_factory_amended.2.2 (some 9) true (NewEntity 9) rfl⟩

theorem C10_readDE_overrides_witness :
    ({ wLine with
        form := 1, «structure» := 0,
        hierarchy := IGES_STAT_HIER.STAT_HIER_ALL_SUB } : IGES_ENTITY_110).«structure» = 0 ∧
    ({ wLine with
        form := 1, «structure» := 0,
        hierarchy := IGES_STAT_HIER.STAT_HIER_ALL_SUB } : IGES_ENTITY_110).hierarchy
      = IGES_STAT_HIER.STAT_HIER_ALL_SUB :=
  C10_readDE_overrides wLine wDER0 true
    { wLine with
      form := 1, «structure» := 0,
      hierarchy := IGES_STAT_HIER.STAT_HIER_ALL_SUB }
    (by with_unfolding_all rfl)

end LibIGES
